import Mathlib

/-!
Verification of the poker table engine in `src/app.py` (repository Jurmay/redeem-me).

The development shallowly embeds the hand evaluator (`evaluate_5`, `best_5_from_7`)
and the betting-round state machine (`GameState`, `apply_action`, `deal_new_hand`,
`next_street_or_showdown`, `manual_set_board`, join/leave handlers) as executable
Lean definitions, then proves or refutes the specification claims about them.

Modelling conventions:
* Python `int` is `Int` where negativity matters (chips, pot, bet amounts) and
  `Nat` for ranks/suits/seats.
* A card string like "As" is the structure `Card` with `rank ∈ 2..14` (via the
  RANK_VALUE table) and `suit ∈ 0..3` coding the characters of "shdc".
* `random.shuffle` is modelled by passing the shuffled deck as an explicit
  parameter constrained to be a permutation of the 52-card universe.
* Python code that can raise (list `pop` on an empty deck) returns `Option`.
* The socket/transport layer is out of scope; event handlers become functions
  from state (plus event payload) to state.
-/

set_option maxHeartbeats 1000000

/-- A playing card as used by src/app.py: `rank ∈ 2..14` (the value assigned by
`RANK_VALUE`, line 20) and `suit ∈ 0..3` coding the suit characters "shdc"
(line 79: 0 = s, 1 = h, 2 = d, 3 = c). -/
structure Card where
  rank : Nat
  suit : Nat
deriving DecidableEq, Repr

/-- The 52-card universe in the order produced by `make_deck` (src/app.py lines
77-82) before shuffling: ranks "23456789TJQKA" outer, suits "shdc" inner. -/
def deck52 : List Card :=
  (List.range' 2 13).flatMap (fun r => [0, 1, 2, 3].map (fun s => Card.mk r s))

/-- The comparison used for `by_count` in `evaluate_5` (src/app.py line 204):
Python sorts the `(rank, count)` pairs by key `(count, rank)` in reverse, i.e.
descending lexicographically on `(count, rank)`. `pairGE a b` says `a` sorts
no later than `b`. -/
def pairGE (a b : Nat × Nat) : Prop :=
  b.2 < a.2 ∨ (a.2 = b.2 ∧ b.1 ≤ a.1)

instance : DecidableRel pairGE := fun a b => by
  unfold pairGE; exact inferInstance

instance : IsTotal (Nat × Nat) pairGE :=
  ⟨by intro a b; unfold pairGE; omega⟩

instance : IsTrans (Nat × Nat) pairGE :=
  ⟨by intro a b c; unfold pairGE; omega⟩

instance : IsAntisymm (Nat × Nat) pairGE :=
  ⟨by
    intro a b h1 h2
    cases a; cases b
    unfold pairGE at h1 h2
    simp only [Prod.mk.injEq]
    omega⟩

instance natGeIsTotal : IsTotal Nat (fun a b => b ≤ a) :=
  ⟨by intro a b; omega⟩

instance natGeIsTrans : IsTrans Nat (fun a b => b ≤ a) :=
  ⟨by intro a b c; omega⟩

instance natGeIsAntisymm : IsAntisymm Nat (fun a b => b ≤ a) :=
  ⟨by intro a b h1 h2; omega⟩

instance natLeIsTotal : IsTotal Nat (fun a b => a ≤ b) :=
  ⟨by intro a b; omega⟩

instance natLeIsTrans : IsTrans Nat (fun a b => a ≤ b) :=
  ⟨by intro a b c; omega⟩

instance natLeIsAntisymm : IsAntisymm Nat (fun a b => a ≤ b) :=
  ⟨by intro a b h1 h2; omega⟩

/-- The value of an evaluated 5-card hand: Python returns the tuple
`(category, tiebreakers)`; tuples compare lexicographically. -/
abbrev HandRank := Nat × List Nat

/-- Python `max(...)` over a (nonempty in all uses) list of rank values.
Python raises on an empty sequence; the 0 default is never reached in the
branches of `evaluate_5` where it is used. -/
def maxListD (l : List Nat) : Nat := l.foldl max 0

/-- The straight-detection block of `evaluate_5` (src/app.py lines 207-219):
when there are at least 5 distinct ranks, scan every window of 5 consecutive
entries of the ascending distinct-rank list `uniq`; a window spanning exactly 4
sets `is_straight` with the window's top as high card (the loop keeps the last
such window); afterwards the wheel test `{14,2,3,4,5} ⊆ set(ranks)` overrides
the high card with 5. Returns `(is_straight, high_straight)`. -/
def straightScan (uniq ranks : List Nat) : Bool × Nat :=
  if 5 ≤ uniq.length then
    let base := (List.range (uniq.length - 4)).foldl
      (fun acc i =>
        if uniq.getD (i + 4) 0 - uniq.getD i 0 = 4 then (true, uniq.getD (i + 4) 0) else acc)
      (false, 0)
    if [14, 2, 3, 4, 5].all (fun v => decide (v ∈ ranks)) then (true, 5) else base
  else (false, 0)

/-- `evaluate_5` (src/app.py lines 190-264): category and tiebreak vector of a
5-card hand. `by_count` is the list of `(rank, multiplicity)` pairs sorted
descending by `(multiplicity, rank)`; Python's dict iteration order before the
sort is irrelevant because the sort key is strict on distinct ranks. The
`getD _ (0,0)` defaults are only reached on the empty hand, where Python would
raise. -/
def evaluate_5 (cards5 : List Card) : HandRank :=
  let ranks := cards5.map Card.rank
  let suits := cards5.map Card.suit
  let ranks_sorted := List.insertionSort (fun a b => b ≤ a) ranks
  let by_count := List.insertionSort pairGE (ranks.dedup.map (fun r => (r, ranks.count r)))
  let uniq := List.insertionSort (fun a b => a ≤ b) ranks.dedup
  let st := straightScan uniq ranks
  let c1 := (by_count.getD 0 (0, 0)).2
  let r1 := (by_count.getD 0 (0, 0)).1
  let c2 := (by_count.getD 1 (0, 0)).2
  let r2 := (by_count.getD 1 (0, 0)).1
  if suits.dedup.length = 1 ∧ st.1 = true then (8, [st.2])
  else if c1 = 4 then (7, [r1, maxListD (ranks.filter (fun r => r ≠ r1))])
  else if c1 = 3 ∧ 1 < by_count.length ∧ 2 ≤ c2 then (6, [r1, r2])
  else if suits.dedup.length = 1 then (5, ranks_sorted)
  else if st.1 = true then (4, [st.2])
  else if c1 = 3 then
    (3, r1 :: (List.insertionSort (fun a b => b ≤ a)
      (ranks.filter (fun r => r ≠ r1))).take 2)
  else if c1 = 2 ∧ 1 < by_count.length ∧ c2 = 2 then
    let hp := max r1 r2
    let lp := min r1 r2
    (2, [hp, lp, maxListD (ranks.filter (fun r => r ≠ hp ∧ r ≠ lp))])
  else if c1 = 2 then
    (1, r1 :: (List.insertionSort (fun a b => b ≤ a)
      (ranks.filter (fun r => r ≠ r1))).take 3)
  else (0, ranks_sorted)

/-- Python list comparison, used inside tuple comparison of hand ranks:
lexicographic, a strict prefix is smaller. -/
def listLtB : List Nat → List Nat → Bool
  | [], [] => false
  | [], _ :: _ => true
  | _ :: _, [] => false
  | a :: as, b :: bs => if a < b then true else if b < a then false else listLtB as bs

/-- Python tuple comparison `a < b` on `(category, tiebreaks)` pairs, as used by
`rank > best` in `evaluate_7` / `best_5_from_7`. -/
def rankLt (a b : HandRank) : Bool :=
  if a.1 < b.1 then true else if b.1 < a.1 then false else listLtB a.2 b.2

/-- `itertools.combinations(l, n)` as used by `evaluate_7` / `best_5_from_7`
(src/app.py lines 270, 281): all length-`n` subsequences of `l`, in order of
ascending index tuples. -/
def combinations {α : Type} : Nat → List α → List (List α)
  | 0, _ => [[]]
  | _ + 1, [] => []
  | n + 1, x :: xs => (combinations n xs).map (fun c => x :: c) ++ combinations (n + 1) xs

/-- One step of the running-maximum loop of `best_5_from_7` (src/app.py
lines 281-285): keep the new combo exactly when its rank is strictly greater. -/
def bestStep (best : Option (HandRank × List Card)) (combo : List Card) :
    Option (HandRank × List Card) :=
  let rank := evaluate_5 combo
  match best with
  | none => some (rank, combo)
  | some (br, bc) => if rankLt br rank = true then some (rank, combo) else some (br, bc)

/-- `best_5_from_7` (src/app.py lines 277-286): scan all 5-card combinations,
returning the best `(rank, combo)` pair (first-seen among ties). `none` only
for inputs with fewer than 5 cards, where Python would return `(None, None)`. -/
def best_5_from_7 (cards7 : List Card) : Option (HandRank × List Card) :=
  (combinations 5 cards7).foldl bestStep none

/-- C7: the wheel A-2-3-4-5 in mixed suits (Ah 2c 3d 4s 5h) evaluates to a
straight (category 4) with high card 5, and ranks strictly below the six-high
straight 2c 3d 4s 5h 6c. -/
theorem evaluate5_wheel_is_five_high_straight :
    evaluate_5 [⟨14, 1⟩, ⟨2, 3⟩, ⟨3, 2⟩, ⟨4, 0⟩, ⟨5, 1⟩] = (4, [5]) ∧
    rankLt (evaluate_5 [⟨14, 1⟩, ⟨2, 3⟩, ⟨3, 2⟩, ⟨4, 0⟩, ⟨5, 1⟩])
      (evaluate_5 [⟨2, 3⟩, ⟨3, 2⟩, ⟨4, 0⟩, ⟨5, 1⟩, ⟨6, 3⟩]) = true := by
  constructor <;> rfl

/-! ### Order lemmas for the Python tuple comparison on hand ranks -/

theorem listLtB_cons_iff {a b : Nat} {as bs : List Nat} :
    listLtB (a :: as) (b :: bs) = true ↔ a < b ∨ (a = b ∧ listLtB as bs = true) := by
  by_cases h1 : a < b
  · simp [listLtB, h1]
  · by_cases h2 : b < a
    · simp only [listLtB, if_neg h1, if_pos h2]
      constructor
      · intro h; exact Bool.noConfusion h
      · rintro (h | ⟨h, _⟩)
        · exact absurd h h1
        · exact absurd h (by omega)
    · have hab : a = b := by omega
      subst hab
      simp [listLtB, h1]

theorem listLtB_irrefl : ∀ l : List Nat, listLtB l l = false
  | [] => rfl
  | a :: as => by simp [listLtB, Nat.lt_irrefl a, listLtB_irrefl as]

theorem listLtB_trans : ∀ (a b c : List Nat),
    listLtB a b = true → listLtB b c = true → listLtB a c = true
  | [], [], _, h1, _ => by simp [listLtB] at h1
  | [], _ :: _, [], _, h2 => by simp [listLtB] at h2
  | [], _ :: _, _ :: _, _, _ => rfl
  | _ :: _, [], _, h1, _ => by simp [listLtB] at h1
  | _ :: _, _ :: _, [], _, h2 => by simp [listLtB] at h2
  | a :: as, b :: bs, c :: cs, h1, h2 => by
    rw [listLtB_cons_iff] at h1 h2 ⊢
    rcases h1 with h1 | ⟨rfl, h1⟩
    · rcases h2 with h2 | ⟨rfl, h2⟩
      · exact Or.inl (Nat.lt_trans h1 h2)
      · exact Or.inl h1
    · rcases h2 with h2 | ⟨rfl, h2⟩
      · exact Or.inl h2
      · exact Or.inr ⟨rfl, listLtB_trans as bs cs h1 h2⟩

theorem listLtB_connex : ∀ (a b : List Nat),
    listLtB a b = false → listLtB b a = true ∨ a = b
  | [], [], _ => Or.inr rfl
  | [], _ :: _, h => by simp [listLtB] at h
  | _ :: _, [], _ => Or.inl rfl
  | a :: as, b :: bs, h => by
    by_cases h1 : a < b
    · simp [listLtB, h1] at h
    · by_cases h2 : b < a
      · exact Or.inl (listLtB_cons_iff.mpr (Or.inl h2))
      · have hab : a = b := by omega
        subst hab
        have h' : listLtB as bs = false := by simpa [listLtB, h1] using h
        rcases listLtB_connex as bs h' with h3 | h3
        · exact Or.inl (listLtB_cons_iff.mpr (Or.inr ⟨rfl, h3⟩))
        · exact Or.inr (by rw [h3])

theorem rankLt_iff {a b : HandRank} :
    rankLt a b = true ↔ a.1 < b.1 ∨ (a.1 = b.1 ∧ listLtB a.2 b.2 = true) := by
  unfold rankLt
  by_cases h1 : a.1 < b.1
  · simp [h1]
  · by_cases h2 : b.1 < a.1
    · simp only [if_neg h1, if_pos h2]
      constructor
      · intro h; exact Bool.noConfusion h
      · rintro (h | ⟨h, _⟩)
        · exact absurd h h1
        · exact absurd h (by omega)
    · simp [h1, h2, (by omega : a.1 = b.1)]

theorem rankLt_irrefl (a : HandRank) : rankLt a a = false := by
  simp [rankLt, listLtB_irrefl]

theorem rankLt_trans {a b c : HandRank} (h1 : rankLt a b = true) (h2 : rankLt b c = true) :
    rankLt a c = true := by
  rw [rankLt_iff] at h1 h2 ⊢
  rcases h1 with h1 | ⟨he1, h1⟩
  · rcases h2 with h2 | ⟨he2, h2⟩
    · exact Or.inl (Nat.lt_trans h1 h2)
    · exact Or.inl (he2 ▸ h1)
  · rcases h2 with h2 | ⟨he2, h2⟩
    · exact Or.inl (he1 ▸ h2)
    · exact Or.inr ⟨he1.trans he2, listLtB_trans _ _ _ h1 h2⟩

theorem rankLt_connex {a b : HandRank} (h : rankLt a b = false) :
    rankLt b a = true ∨ a = b := by
  have h' : ¬(a.1 < b.1 ∨ (a.1 = b.1 ∧ listLtB a.2 b.2 = true)) := by
    rw [← rankLt_iff, h]; simp
  push_neg at h'
  by_cases he : a.1 = b.1
  · have hl : listLtB a.2 b.2 = false := by
      have := h'.2 he
      cases hx : listLtB a.2 b.2
      · rfl
      · exact absurd hx this
    rcases listLtB_connex a.2 b.2 hl with h3 | h3
    · exact Or.inl (rankLt_iff.mpr (Or.inr ⟨he.symm, h3⟩))
    · refine Or.inr ?_
      cases a; cases b
      simp_all
  · have hlt : b.1 < a.1 := by omega
    exact Or.inl (rankLt_iff.mpr (Or.inl hlt))

theorem rankLt_antisymm {a b : HandRank} (h1 : rankLt a b = false) (h2 : rankLt b a = false) :
    a = b := by
  rcases rankLt_connex h1 with h | h
  · rw [h] at h2; exact Bool.noConfusion h2
  · exact h

theorem rankLt_neg_trans {a b c : HandRank} (h1 : rankLt a b = false)
    (h2 : rankLt b c = false) : rankLt a c = false := by
  cases hac : rankLt a c with
  | false => rfl
  | true =>
    exfalso
    rcases rankLt_connex h1 with hba | heq
    · rcases rankLt_connex h2 with hcb | heq2
      · have hca : rankLt c a = true := rankLt_trans hcb hba
        have : rankLt c c = true := rankLt_trans hca hac
        rw [rankLt_irrefl] at this
        exact Bool.noConfusion this
      · subst heq2
        rw [h1] at hac
        exact Bool.noConfusion hac
    · subst heq
      rw [h2] at hac
      exact Bool.noConfusion hac

/-! ### Combinations and the best-of-7 fold -/

theorem mem_combinations {α : Type} : ∀ (n : Nat) (l c : List α),
    c ∈ combinations n l ↔ c.length = n ∧ c.Sublist l := by
  intro n l
  induction l generalizing n with
  | nil =>
    intro c
    cases n with
    | zero =>
      simp only [combinations, List.mem_singleton]
      constructor
      · rintro rfl; exact ⟨rfl, List.Sublist.refl []⟩
      · rintro ⟨hl, hs⟩
        rw [List.sublist_nil] at hs
        exact hs
    | succ n =>
      simp only [combinations, List.not_mem_nil, false_iff]
      rintro ⟨hl, hs⟩
      rw [List.sublist_nil] at hs
      subst hs
      simp at hl
  | cons x xs ih =>
    intro c
    cases n with
    | zero =>
      simp only [combinations, List.mem_singleton]
      constructor
      · rintro rfl; exact ⟨rfl, List.nil_sublist _⟩
      · rintro ⟨hl, _⟩
        exact List.length_eq_zero.mp hl
    | succ n =>
      simp only [combinations, List.mem_append, List.mem_map]
      constructor
      · rintro (⟨c', hc', rfl⟩ | h)
        · obtain ⟨hl, hs⟩ := (ih n c').mp hc'
          exact ⟨by simp [hl], hs.cons₂ x⟩
        · obtain ⟨hl, hs⟩ := (ih (n + 1) c).mp h
          exact ⟨hl, hs.cons x⟩
      · rintro ⟨hl, hs⟩
        rcases List.sublist_cons_iff.mp hs with hs' | ⟨r, rfl, hr⟩
        · exact Or.inr ((ih (n + 1) c).mpr ⟨hl, hs'⟩)
        · exact Or.inl ⟨r, (ih n r).mpr ⟨by simpa using hl, hr⟩, rfl⟩

theorem best5_foldl_spec (l : List (List Card)) : ∀ (br : HandRank) (bc : List Card),
    ∃ r c, l.foldl bestStep (some (br, bc)) = some (r, c) ∧
      ((r = br ∧ c = bc) ∨ (c ∈ l ∧ evaluate_5 c = r)) ∧
      rankLt r br = false ∧ ∀ x ∈ l, rankLt r (evaluate_5 x) = false := by
  induction l with
  | nil =>
    intro br bc
    exact ⟨br, bc, rfl, Or.inl ⟨rfl, rfl⟩, rankLt_irrefl br, by simp⟩
  | cons x xs ih =>
    intro br bc
    by_cases hx : rankLt br (evaluate_5 x) = true
    · have hstep : bestStep (some (br, bc)) x = some (evaluate_5 x, x) := by
        simp [bestStep, hx]
      obtain ⟨r, c, hfold, horig, hge, hall⟩ := ih (evaluate_5 x) x
      refine ⟨r, c, ?_, ?_, ?_, ?_⟩
      · simpa [List.foldl_cons, hstep] using hfold
      · rcases horig with ⟨rfl, rfl⟩ | ⟨hc, he⟩
        · exact Or.inr ⟨List.mem_cons_self _ _, rfl⟩
        · exact Or.inr ⟨List.mem_cons_of_mem _ hc, he⟩
      · cases hrb : rankLt r br with
        | false => rfl
        | true =>
          have := rankLt_trans hrb hx
          rw [this] at hge
          exact Bool.noConfusion hge
      · intro y hy
        rcases List.mem_cons.mp hy with rfl | hy2
        · exact hge
        · exact hall y hy2
    · have hx' : rankLt br (evaluate_5 x) = false := by
        cases h : rankLt br (evaluate_5 x)
        · rfl
        · exact absurd h hx
      have hstep : bestStep (some (br, bc)) x = some (br, bc) := by
        simp [bestStep, hx']
      obtain ⟨r, c, hfold, horig, hge, hall⟩ := ih br bc
      refine ⟨r, c, by simpa [List.foldl_cons, hstep] using hfold, ?_, hge, ?_⟩
      · rcases horig with h | ⟨hc, he⟩
        · exact Or.inl h
        · exact Or.inr ⟨List.mem_cons_of_mem _ hc, he⟩
      · intro y hy
        rcases List.mem_cons.mp hy with rfl | hy2
        · exact rankLt_neg_trans hge hx'
        · exact hall y hy2

theorem best_5_from_7_spec (cards : List Card) (h5 : 5 ≤ cards.length) :
    ∃ r c, best_5_from_7 cards = some (r, c) ∧ c ∈ combinations 5 cards ∧
      evaluate_5 c = r ∧ ∀ x ∈ combinations 5 cards, rankLt r (evaluate_5 x) = false := by
  have htake : cards.take 5 ∈ combinations 5 cards :=
    (mem_combinations 5 cards _).mpr ⟨by simp [Nat.min_eq_left h5], List.take_sublist 5 cards⟩
  obtain ⟨x, xs, hxx⟩ := List.exists_cons_of_ne_nil (List.ne_nil_of_mem htake)
  unfold best_5_from_7
  rw [hxx]
  have hsteph : bestStep none x = some (evaluate_5 x, x) := rfl
  obtain ⟨r, c, hfold, horig, hge, hall⟩ := best5_foldl_spec xs (evaluate_5 x) x
  refine ⟨r, c, by simpa [List.foldl_cons, hsteph] using hfold, ?_, ?_, ?_⟩
  · rcases horig with ⟨rfl, rfl⟩ | ⟨hc, _⟩
    · exact List.mem_cons_self _ _
    · exact List.mem_cons_of_mem _ hc
  · rcases horig with ⟨rfl, rfl⟩ | ⟨_, he⟩
    · rfl
    · exact he
  · intro y hy
    rcases List.mem_cons.mp hy with rfl | hy2
    · rcases horig with ⟨rfl, rfl⟩ | _
      · exact rankLt_irrefl _
      · exact hge
    · exact hall y hy2

/-! ### Permutation invariance of the evaluator -/

theorem foldl_max_perm {l1 l2 : List Nat} (h : l1.Perm l2) :
    ∀ b : Nat, l1.foldl max b = l2.foldl max b := by
  induction h with
  | nil => intro b; rfl
  | cons x _ ih => intro b; simp only [List.foldl_cons]; exact ih _
  | swap x y l =>
    intro b
    simp only [List.foldl_cons]
    have : max (max b y) x = max (max b x) y := by omega
    rw [this]
  | trans _ _ ih1 ih2 => intro b; rw [ih1, ih2]

theorem maxListD_perm {l1 l2 : List Nat} (h : l1.Perm l2) : maxListD l1 = maxListD l2 :=
  foldl_max_perm h 0

theorem sort_desc_eq_of_perm {l1 l2 : List Nat} (h : l1.Perm l2) :
    List.insertionSort (fun a b => b ≤ a) l1 = List.insertionSort (fun a b => b ≤ a) l2 :=
  List.eq_of_perm_of_sorted
    ((List.perm_insertionSort _ _).trans (h.trans (List.perm_insertionSort _ _).symm))
    (List.sorted_insertionSort _ _) (List.sorted_insertionSort _ _)

theorem sort_asc_eq_of_perm {l1 l2 : List Nat} (h : l1.Perm l2) :
    List.insertionSort (fun a b => a ≤ b) l1 = List.insertionSort (fun a b => a ≤ b) l2 :=
  List.eq_of_perm_of_sorted
    ((List.perm_insertionSort _ _).trans (h.trans (List.perm_insertionSort _ _).symm))
    (List.sorted_insertionSort _ _) (List.sorted_insertionSort _ _)

theorem sort_pairGE_eq_of_perm {l1 l2 : List (Nat × Nat)} (h : l1.Perm l2) :
    List.insertionSort pairGE l1 = List.insertionSort pairGE l2 :=
  List.eq_of_perm_of_sorted
    ((List.perm_insertionSort _ _).trans (h.trans (List.perm_insertionSort _ _).symm))
    (List.sorted_insertionSort _ _) (List.sorted_insertionSort _ _)

theorem straightScan_congr {r1 r2 : List Nat} (h : ∀ v, v ∈ r1 ↔ v ∈ r2) (u : List Nat) :
    straightScan u r1 = straightScan u r2 := by
  unfold straightScan
  have hf : (fun v : Nat => decide (v ∈ r1)) = (fun v : Nat => decide (v ∈ r2)) :=
    funext fun v => by simp [h v]
  rw [hf]

/-- `evaluate_5` only depends on the multiset of its input cards: all its
intermediate values are built from sorts, dedups, counts and memberships. -/
theorem evaluate5_perm {l1 l2 : List Card} (h : l1.Perm l2) :
    evaluate_5 l1 = evaluate_5 l2 := by
  have hranks : (l1.map Card.rank).Perm (l2.map Card.rank) := h.map _
  have hsuits : (l1.map Card.suit).Perm (l2.map Card.suit) := h.map _
  have hsorted := sort_desc_eq_of_perm hranks
  have hcount : ∀ r, (l1.map Card.rank).count r = (l2.map Card.rank).count r :=
    hranks.count_eq
  have hfun : (fun r => (r, (l1.map Card.rank).count r))
      = (fun r => (r, (l2.map Card.rank).count r)) :=
    funext fun r => by rw [hcount]
  have hdedup : (l1.map Card.rank).dedup.Perm (l2.map Card.rank).dedup := hranks.dedup
  have hbc : List.insertionSort pairGE
        ((l1.map Card.rank).dedup.map (fun r => (r, (l1.map Card.rank).count r)))
      = List.insertionSort pairGE
        ((l2.map Card.rank).dedup.map (fun r => (r, (l2.map Card.rank).count r))) := by
    apply sort_pairGE_eq_of_perm
    rw [hfun]
    exact hdedup.map _
  have huniq := sort_asc_eq_of_perm hdedup
  have hsuitsd : (l1.map Card.suit).dedup.length = (l2.map Card.suit).dedup.length :=
    hsuits.dedup.length_eq
  have hscan : ∀ u, straightScan u (l1.map Card.rank) = straightScan u (l2.map Card.rank) :=
    straightScan_congr (fun v => hranks.mem_iff)
  have hfmax : ∀ p : Nat → Bool,
      maxListD ((l1.map Card.rank).filter p) = maxListD ((l2.map Card.rank).filter p) :=
    fun p => maxListD_perm (hranks.filter p)
  have hfsort : ∀ p : Nat → Bool,
      List.insertionSort (fun a b => b ≤ a) ((l1.map Card.rank).filter p)
      = List.insertionSort (fun a b => b ≤ a) ((l2.map Card.rank).filter p) :=
    fun p => sort_desc_eq_of_perm (hranks.filter p)
  simp only [evaluate_5]
  rw [hsorted, hbc, huniq, hsuitsd, hscan]
  simp only [hfmax, hfsort]

/-- C3: on any 7 distinct cards, `best_5_from_7` returns a rank together with a
5-card subset (a subsequence) of exactly those 7 cards achieving it; the rank
is the maximum of `evaluate_5` over all 5-card subsets, and it is invariant
under any permutation of the 7 input cards. -/
theorem best5of7_max_and_perm_invariant (cards7 : List Card) (hlen : cards7.length = 7)
    (hnd : cards7.Nodup) :
    ∃ r best5, best_5_from_7 cards7 = some (r, best5) ∧
      best5.length = 5 ∧ best5.Sublist cards7 ∧ evaluate_5 best5 = r ∧
      (∀ c, c.Sublist cards7 → c.length = 5 → rankLt r (evaluate_5 c) = false) ∧
      (∀ cards7b : List Card, cards7b.Perm cards7 →
        (best_5_from_7 cards7b).map Prod.fst = some r) := by
  obtain ⟨r, c, heq, hmem, heval, hmax⟩ := best_5_from_7_spec cards7 (by omega)
  obtain ⟨hclen, hcsub⟩ := (mem_combinations 5 cards7 c).mp hmem
  refine ⟨r, c, heq, hclen, hcsub, heval, ?_, ?_⟩
  · intro c2 hc2 hlen5
    exact hmax c2 ((mem_combinations 5 cards7 c2).mpr ⟨hlen5, hc2⟩)
  · intro cb hperm
    obtain ⟨rb, cbb, heqb, hmemb, hevalb, hmaxb⟩ :=
      best_5_from_7_spec cb (by rw [hperm.length_eq, hlen]; omega)
    rw [heqb, Option.map_some']
    obtain ⟨hblen, hbsub⟩ := (mem_combinations 5 cb cbb).mp hmemb
    have h1 : rankLt r rb = false := by
      have hsp : cbb.Subperm cards7 := hbsub.subperm.trans hperm.subperm
      obtain ⟨c2, hc2p, hc2s⟩ := hsp
      have he2 : evaluate_5 c2 = evaluate_5 cbb := evaluate5_perm hc2p
      have := hmax c2 ((mem_combinations 5 cards7 c2).mpr
        ⟨by rw [hc2p.length_eq, hblen], hc2s⟩)
      rw [he2, hevalb] at this
      exact this
    have h2 : rankLt rb r = false := by
      have hsp : c.Subperm cb := hcsub.subperm.trans hperm.symm.subperm
      obtain ⟨c2, hc2p, hc2s⟩ := hsp
      have he2 : evaluate_5 c2 = evaluate_5 c := evaluate5_perm hc2p
      have := hmaxb c2 ((mem_combinations 5 cb c2).mpr
        ⟨by rw [hc2p.length_eq, hclen], hc2s⟩)
      rw [he2, heval] at this
      exact this
    rw [rankLt_antisymm h2 h1]

/-- Witness for C3 at the concrete 7-card input As Ks Qs Js Ts 9h 8d. -/
theorem best5of7_max_and_perm_invariant_witness :
    ([⟨14, 0⟩, ⟨13, 0⟩, ⟨12, 0⟩, ⟨11, 0⟩, ⟨10, 0⟩, ⟨9, 1⟩, ⟨8, 2⟩] : List Card).length = 7 ∧
    ([⟨14, 0⟩, ⟨13, 0⟩, ⟨12, 0⟩, ⟨11, 0⟩, ⟨10, 0⟩, ⟨9, 1⟩, ⟨8, 2⟩] : List Card).Nodup ∧
    (∃ r best5,
      best_5_from_7 [⟨14, 0⟩, ⟨13, 0⟩, ⟨12, 0⟩, ⟨11, 0⟩, ⟨10, 0⟩, ⟨9, 1⟩, ⟨8, 2⟩]
        = some (r, best5) ∧
      best5.length = 5 ∧
      best5.Sublist [⟨14, 0⟩, ⟨13, 0⟩, ⟨12, 0⟩, ⟨11, 0⟩, ⟨10, 0⟩, ⟨9, 1⟩, ⟨8, 2⟩] ∧
      evaluate_5 best5 = r ∧
      (∀ c, c.Sublist [⟨14, 0⟩, ⟨13, 0⟩, ⟨12, 0⟩, ⟨11, 0⟩, ⟨10, 0⟩, ⟨9, 1⟩, ⟨8, 2⟩] →
        c.length = 5 → rankLt r (evaluate_5 c) = false) ∧
      (∀ cards7b : List Card,
        cards7b.Perm [⟨14, 0⟩, ⟨13, 0⟩, ⟨12, 0⟩, ⟨11, 0⟩, ⟨10, 0⟩, ⟨9, 1⟩, ⟨8, 2⟩] →
        (best_5_from_7 cards7b).map Prod.fst = some r)) :=
  ⟨by decide, by decide,
    best5of7_max_and_perm_invariant _ (by decide) (by decide)⟩

/-! ### The betting-engine state machine -/

/-- Per-seat statistics (src/app.py class PlayerStats, lines 25-36). -/
structure PlayerStats where
  hands_played : Nat
  vpip_hands : Nat
  pfr_hands : Nat
deriving DecidableEq, Repr

def PlayerStats.init : PlayerStats := ⟨0, 0, 0⟩

/-- Per-seat state (src/app.py class PlayerState, lines 39-47). The socket id
`sid` is transport bookkeeping and is modelled away; leave/kick handlers are
keyed directly by seat. Chips are `Int` because nothing in the Python type
forbids negative values; non-negativity is a theorem, not an assumption. -/
structure PlayerState where
  seat : Nat
  name : String
  is_hero : Bool
  chips : Int
  hole_cards : List Card
  folded : Bool
deriving DecidableEq, Repr

/-- Streets of a hand (the strings "preflop".."river" of src/app.py). -/
inductive Street
  | preflop | flop | turn | river
deriving DecidableEq, Repr

/-- One per-player row of an archived hand (the dicts built in
`check_hand_end_if_one_left` and `build_showdown_result`). -/
structure RecordedPlayer where
  seat : Nat
  name : String
  hole_cards : List Card
  folded : Bool
  winner : Bool
  best_five : List Card
deriving DecidableEq, Repr

/-- A finished-hand record as archived by `record_hand` (src/app.py 115-133);
`record_hand` deep-copies the result dict, which on immutable Lean values is
the identity, so recording is modelled as a plain append. -/
structure HandRecord where
  board : List Card
  note : String
  players : List RecordedPlayer
deriving DecidableEq, Repr

/-- The global table state (src/app.py class GameState, lines 50-68).
`hero_mode` only gates when the hero's decision is applied, never its effect,
and is not modelled; `to_act` is a Python set, hence a `Finset`. -/
structure GameState where
  players : List PlayerState
  deck : List Card
  full_board : List Card
  board : List Card
  pot : Int
  street : Option Street
  current_bet : Int
  current_player_seat : Option Nat
  to_act : Finset Nat
  hand_running : Bool
  hand_history : List HandRecord
  stats : List (Nat × PlayerStats)
deriving DecidableEq

/-- `GameState()` (src/app.py lines 51-68): the freshly constructed table. -/
def GameState.initState : GameState :=
  { players := [], deck := [], full_board := [], board := [], pot := 0,
    street := none, current_bet := 0, current_player_seat := none,
    to_act := ∅, hand_running := false, hand_history := [], stats := [] }

/-- `find_player_by_seat` (src/app.py 85-89): first player with the seat. -/
def find_player_by_seat (g : GameState) (seat : Nat) : Option PlayerState :=
  g.players.find? (fun p => p.seat == seat)

/-- `active_seats` (src/app.py 92-93): seats of non-folded players, in
player-list order. -/
def active_seats (g : GameState) : List Nat :=
  (g.players.filter (fun p => !p.folded)).map (fun p => p.seat)

/-- Mutating the player object returned by `find_player_by_seat`: replace the
first list entry with the given seat. -/
def updatePlayer : List PlayerState → Nat → (PlayerState → PlayerState) → List PlayerState
  | [], _, _ => []
  | p :: ps, seat, f => if p.seat = seat then f p :: ps else p :: updatePlayer ps seat f

/-- `game.players.remove(p)` for the player found by seat. -/
def removeFirstSeat : List PlayerState → Nat → List PlayerState
  | [], _ => []
  | p :: ps, seat => if p.seat = seat then ps else p :: removeFirstSeat ps seat

/-- `game.stats.get(seat)`; the stats dict is an association list. -/
def statsFind (st : List (Nat × PlayerStats)) (seat : Nat) : Option PlayerStats :=
  (st.find? (fun e => e.1 == seat)).map (fun e => e.2)

/-- In-place update of the stats entry for a seat, if present. -/
def statsUpdate : List (Nat × PlayerStats) → Nat → (PlayerStats → PlayerStats) →
    List (Nat × PlayerStats)
  | [], _, _ => []
  | e :: es, seat, f => if e.1 = seat then (e.1, f e.2) :: es else e :: statsUpdate es seat f

/-- `if seat not in game.stats: game.stats[seat] = PlayerStats()` — dict
insertion appends a fresh entry. -/
def statsEnsure (st : List (Nat × PlayerStats)) (seat : Nat) : List (Nat × PlayerStats) :=
  if (statsFind st seat).isSome then st else st ++ [(seat, PlayerStats.init)]

/-- `seat_order_after` (src/app.py 360-367): next active seat in circular
ascending order; `none` when no seat is active. -/
def seat_order_after (g : GameState) (seat : Option Nat) : Option Nat :=
  let seats := List.insertionSort (fun a b => a ≤ b) (active_seats g)
  match seats with
  | [] => none
  | s0 :: _ =>
    match seat with
    | none => some s0
    | some s =>
      match seats.filter (fun x => s < x) with
      | [] => some s0
      | b :: _ => some b

/-- One result row of `check_hand_end_if_one_left` (src/app.py 406-414):
every non-folded player is marked winner. -/
def foldoutRow (p : PlayerState) : RecordedPlayer :=
  { seat := p.seat, name := p.name, hole_cards := p.hole_cards,
    folded := p.folded, winner := !p.folded, best_five := [] }

/-- The note built at fold-out (src/app.py 415-421). -/
def foldoutNote (rows : List RecordedPlayer) : String :=
  let winner_names := (rows.filter (fun r => r.winner)).map
    (fun r => "Seat " ++ toString r.seat ++ " – " ++ r.name)
  let base := "Hand ended because all but one player folded."
  if winner_names.isEmpty then base
  else base ++ " Winner: " ++ String.intercalate ", " winner_names

/-- `check_hand_end_if_one_left` (src/app.py 401-434): when at most one active
seat remains in a running hand, archive a `HandRecord` marking exactly the
non-folded players as winners and stop the hand. Returns the new state and
the Python return value. -/
def check_hand_end_if_one_left (g : GameState) : GameState × Bool :=
  if (active_seats g).length ≤ 1 ∧ g.hand_running = true then
    let rows := g.players.map foldoutRow
    let result : HandRecord :=
      { board := g.board, note := foldoutNote rows, players := rows }
    ({ g with hand_history := g.hand_history ++ [result], hand_running := false }, true)
  else (g, false)

/-- The four action strings accepted by `apply_action` (src/app.py 644-676);
any other string falls through every branch and the callers only produce
these four. -/
inductive PAction
  | FOLD | CHECK | CALL | RAISE
deriving DecidableEq, Repr

/-- The preflop-stats bump of the CALL branch (src/app.py 657-658): `street0`
is the street read at the top of `apply_action` and `stats` its dict lookup
(truthy iff present). -/
def callStats (g : GameState) (seat : Nat) (street0 : Option Street) (call_amount : Int) :
    GameState :=
  if street0 = some Street.preflop ∧ (statsFind g.stats seat).isSome ∧ 0 < call_amount then
    { g with stats :=
        statsUpdate g.stats seat (fun s => { s with vpip_hands := s.vpip_hands + 1 }) }
  else g

/-- The payment part of the RAISE branch (src/app.py 664-669): pay
`total_bet`, clamped to the acting player's pre-action chips `chips0`, but
only when positive. -/
def raisePay (g : GameState) (chips0 : Int) (seat : Nat) (total_bet : Int) : GameState :=
  if 0 < total_bet then
    let pay := if chips0 < total_bet then chips0 else total_bet
    { g with
      players := updatePlayer g.players seat (fun p => { p with chips := p.chips - pay }),
      pot := g.pot + pay }
  else g

/-- `game.current_bet = total_bet` (src/app.py 670). -/
def setCurrentBet (g : GameState) (t : Int) : GameState := { g with current_bet := t }

/-- The preflop-stats bump of the RAISE branch (src/app.py 672-674). -/
def raiseStats (g : GameState) (seat : Nat) (street0 : Option Street) (total_bet : Int) :
    GameState :=
  if street0 = some Street.preflop ∧ (statsFind g.stats seat).isSome ∧ 0 < total_bet then
    { g with stats :=
        statsUpdate g.stats seat (fun s =>
          { s with vpip_hands := s.vpip_hands + 1, pfr_hands := s.pfr_hands + 1 }) }
  else g

/-- The mutation branch of `apply_action` for one action (src/app.py 641-676):
chip/pot/folded/to_act/current_bet/stats updates, before the fold-out check.
`player` is the object the caller found for `seat`. -/
def applyActionCore (g : GameState) (player : PlayerState) (seat : Nat)
    (action : PAction) (amount : Int) : GameState :=
  match action with
  | PAction.FOLD =>
    { g with players := updatePlayer g.players seat (fun p => { p with folded := true }),
             to_act := g.to_act.erase seat }
  | PAction.CHECK => { g with to_act := g.to_act.erase seat }
  | PAction.CALL =>
    let call_amount := min player.chips g.current_bet
    callStats
      { g with
        players := updatePlayer g.players seat
          (fun p => { p with chips := p.chips - call_amount }),
        pot := g.pot + call_amount,
        to_act := g.to_act.erase seat }
      seat g.street call_amount
  | PAction.RAISE =>
    let call_amount := min player.chips g.current_bet
    let total_bet := min (call_amount + amount) (player.chips + call_amount)
    let g3 := raiseStats (setCurrentBet (raisePay g player.chips seat total_bet) total_bet)
      seat g.street total_bet
    { g3 with to_act := ((active_seats g3).filter (fun s => s ≠ seat)).toFinset }

/-- `apply_action` (src/app.py 636-684): the no-op guard, the action branch,
the fold-out check (returning immediately when the hand ended), and the seat
advance. The trailing `broadcast_state(); ask_for_action()` re-entry is
modelled as separate transition steps. -/
def apply_action (g : GameState) (seat : Nat) (action : PAction) (amount : Int) : GameState :=
  match find_player_by_seat g seat with
  | none => g
  | some player =>
    if seat ∈ g.to_act ∧ g.hand_running = true then
      let g1 := applyActionCore g player seat action amount
      let res := check_hand_end_if_one_left g1
      if res.2 then res.1
      else { res.1 with current_player_seat := seat_order_after res.1 (some seat) }
    else g

/-- Pop from the END of a Python list (`deck.pop()`); `none` on the empty
deck, where Python raises IndexError. -/
def popLast {α : Type} : List α → Option (α × List α)
  | [] => none
  | [a] => some (a, [])
  | a :: b :: rest =>
    (popLast (b :: rest)).map (fun pr => (pr.1, a :: pr.2))

/-- Pop `n` cards off the end of the deck, listed in pop order (the order they
are appended to `full_board` in src/app.py 464-465). -/
def popN : Nat → List Card → Option (List Card × List Card)
  | 0, d => some ([], d)
  | n + 1, d =>
    match popLast d with
    | none => none
    | some (c, d1) =>
      match popN n d1 with
      | none => none
      | some (cs, d2) => some (c :: cs, d2)

/-- The hole-card dealing loop of `deal_new_hand` (src/app.py 467-472): the
hero keeps pre-specified cards when exactly 2 were given; every other player
pops two cards off the deck end (`[deck.pop(), deck.pop()]`, left to right). -/
def dealHoles (hero_cards : List Card) :
    List PlayerState → List Card → Option (List PlayerState × List Card)
  | [], deck => some ([], deck)
  | p :: ps, deck =>
    if p.is_hero = true ∧ hero_cards ≠ [] ∧ hero_cards.length = 2 then
      (dealHoles hero_cards ps deck).map
        (fun r => ({ p with hole_cards := hero_cards } :: r.1, r.2))
    else
      match popLast deck with
      | none => none
      | some (c1, d1) =>
        match popLast d1 with
        | none => none
        | some (c2, d2) =>
          (dealHoles hero_cards ps d2).map
            (fun r => ({ p with hole_cards := [c1, c2] } :: r.1, r.2))

/-- `deal_new_hand` (src/app.py 439-496). `shuffled` is the output of
`make_deck()`; `hero_cards` / `board_cards` are the split pre-specified card
strings (`[]` = Python None). Returns `none` if the deck runs out. The
trailing `ask_for_action()` is modelled as separate transition steps. -/
def deal_new_hand (shuffled hero_cards board_cards : List Card) (g : GameState) :
    Option GameState :=
  let players0 := g.players.map
    (fun p => { p with chips := (1000 : Int), folded := false, hole_cards := ([] : List Card) })
  let used := hero_cards ++ board_cards
  let deck0 := shuffled.filter (fun c => decide (c ∉ used))
  (if board_cards ≠ [] ∧ board_cards.length = 5 then some (board_cards, deck0)
   else popN 5 deck0).bind (fun fb =>
  (dealHoles hero_cards players0 fb.2).bind (fun pd =>
    let stats1 := pd.1.foldl
      (fun st p => statsUpdate (statsEnsure st p.seat) p.seat
        (fun s => { s with hands_played := s.hands_played + 1 })) g.stats
    let g1 : GameState := { g with
      players := pd.1, deck := pd.2, pot := 0,
      street := some Street.preflop, board := [], full_board := fb.1,
      current_bet := 0, hand_running := true, stats := stats1 }
    let seats := active_seats g1
    some { g1 with to_act := seats.toFinset, current_player_seat := seats.head? }))

/-- Base rows for `build_showdown_result` (src/app.py 294-319). -/
def showdownBaseRow (p : PlayerState) : RecordedPlayer :=
  { seat := p.seat, name := p.name, hole_cards := p.hole_cards,
    folded := p.folded, winner := false, best_five := [] }

/-- `build_showdown_result` (src/app.py 289-357): with a short board nobody is
marked winner; otherwise every non-folded seat with at least two hole cards is
evaluated by `best_5_from_7` and the seats matching the maximal rank win. -/
def build_showdown_result (g : GameState) : HandRecord :=
  if g.board.length < 5 then
    { board := g.board,
      note := "Showdown with incomplete board – winner not evaluated.",
      players := g.players.map showdownBaseRow }
  else
    let triples := g.players.filterMap (fun p =>
      if p.folded = false ∧ 2 ≤ p.hole_cards.length then
        (best_5_from_7 (p.hole_cards ++ g.board)).map (fun rb => (p.seat, rb.1, rb.2))
      else none)
    let best_rank := triples.foldl (fun acc t =>
      match acc with
      | none => some t.2.1
      | some b => if rankLt b t.2.1 = true then some t.2.1 else some b) none
    let winners := (triples.filter (fun t => decide (some t.2.1 = best_rank))).map
      (fun t => t.1)
    let rows := (g.players.map showdownBaseRow).map (fun row =>
      let row1 := if winners.contains row.seat then { row with winner := true } else row
      match triples.find? (fun t => t.1 == row.seat) with
      | some t => { row1 with best_five := t.2.2 }
      | none => row1)
    let note :=
      if winners.isEmpty then "No active players to evaluate."
      else "Winners: " ++ String.intercalate ", "
        ((rows.filter (fun r => winners.contains r.seat)).map
          (fun r => "Seat " ++ toString r.seat ++ " – " ++ r.name))
    { board := g.board, note := note, players := rows }

/-- The street-entry reset at the end of `next_street_or_showdown`
(src/app.py 522-525). -/
def nextStreetReset (g : GameState) : GameState :=
  let seats := active_seats g
  { g with current_bet := 0, to_act := seats.toFinset,
           current_player_seat := seats.head? }

/-- `next_street_or_showdown` (src/app.py 499-527): reveal the next slice of
the precomputed board and reset the street's betting state, or run the
showdown past the river (the `else` also catches `street = none`). The
trailing `ask_for_action()` is a separate transition step. -/
def next_street_or_showdown (g : GameState) : GameState :=
  if g.hand_running = true then
    match g.street with
    | some Street.preflop =>
      nextStreetReset { g with street := some Street.flop, board := g.full_board.take 3 }
    | some Street.flop =>
      nextStreetReset { g with street := some Street.turn, board := g.full_board.take 4 }
    | some Street.turn =>
      nextStreetReset { g with street := some Street.river, board := g.full_board.take 5 }
    | _ =>
      let result := build_showdown_result g
      { g with hand_history := g.hand_history ++ [result], hand_running := false }
  else g

/-- `manual_set_board` (src/app.py 370-398): operator override of the visible
board (3-5 cards), adjusting the street and back-filling the precomputed full
board; rejected when no hand is running or the count is out of range. The
deck is NOT adjusted. -/
def manual_set_board (g : GameState) (cards : List Card) : GameState :=
  if g.hand_running = false then g
  else
    let n := cards.length
    if n < 3 ∨ 5 < n then g
    else
      let street := if n = 3 then Street.flop else if n = 4 then Street.turn else Street.river
      let full_board :=
        if g.full_board = [] then cards
        else
          let full := g.full_board
          let k := min n full.length
          let full1 := cards.take k ++ full.drop k
          let full2 := if full1.length < 5
            then full1 ++ (cards.drop full1.length).take (5 - full1.length)
            else full1
          full2.take 5
      { g with board := cards, street := some street, full_board := full_board }

/-- Python `str.lower()`, modelled characterwise on the underlying character
list (`String.toLower` itself is a byte-position loop the kernel cannot
evaluate). -/
def lowerString (s : String) : String := String.mk (s.data.map Char.toLower)

/-- `on_join` (src/app.py 759-792): reject duplicate names (case-insensitive)
and full tables; otherwise append the newcomer at the lowest free seat in
1..6 and ensure a stats entry. -/
def on_join (g : GameState) (name : String) : GameState :=
  if g.players.any (fun p => lowerString p.name == lowerString name) then g
  else
    match (List.range' 1 6).find? (fun s => !(g.players.any (fun p => p.seat == s))) with
    | none => g
    | some seat =>
      { g with
        players := g.players ++
          [{ seat := seat, name := name, is_hero := false, chips := 1000,
             hole_cards := [], folded := false }],
        stats := statsEnsure g.stats seat }

/-- `on_player_leave` / `on_disconnect` (src/app.py 795-831), keyed by seat:
during a running hand the leaver is folded and removed from to-act (running
the fold-out check), then the player object is removed from the list. -/
def player_leave (g : GameState) (seat : Nat) : GameState :=
  match find_player_by_seat g seat with
  | none => g
  | some _ =>
    let g1 :=
      if g.hand_running = true then
        (check_hand_end_if_one_left { g with
          players := updatePlayer g.players seat (fun p => { p with folded := true }),
          to_act := g.to_act.erase seat }).1
      else g
    { g1 with players := removeFirstSeat g1.players seat }

/-- `on_hero_kick` (src/app.py 895-924): like a leave, but seat 0 (the hero)
cannot be kicked. The body duplicates the leave handler's state effect. -/
def hero_kick (g : GameState) (seat : Nat) : GameState :=
  if seat = 0 then g else player_leave g seat

/-- `soft_reset` (src/app.py 160-188): clear the current hand but keep
players, chips and stats. -/
def soft_reset (g : GameState) : GameState :=
  { g with
    players := g.players.map (fun p => { p with hole_cards := ([] : List Card), folded := false }),
    deck := [], full_board := [], board := [], pot := 0, street := none,
    current_bet := 0, current_player_seat := none, to_act := ∅, hand_running := false }

/-- The hero-creation part of `on_hero_start` (src/app.py 836-842): insert a
hero player at seat 0 at the front of the player list if absent. -/
def ensure_hero (g : GameState) : GameState :=
  match find_player_by_seat g 0 with
  | some _ => g
  | none =>
    { g with
      players :=
        { seat := 0, name := "Hero AI", is_hero := true, chips := (1000 : Int),
          hole_cards := [], folded := false } :: g.players,
      stats := statsEnsure g.stats 0 }

/-- One event-loop transition of the table: each constructor is one mutating
operation of src/app.py. `housekeeping` over-approximates the `to_act`
discards and current-seat advances performed inside `ask_for_action`
(src/app.py 584-633), which touch no other field. -/
inductive Step : GameState → GameState → Prop
  | join (g : GameState) (name : String) : Step g (on_join g name)
  | heroEnsure (g : GameState) : Step g (ensure_hero g)
  | deal (g g2 : GameState) (shuffled hero_cards board_cards : List Card)
      (hperm : shuffled.Perm deck52)
      (h : deal_new_hand shuffled hero_cards board_cards g = some g2) : Step g g2
  | action (g : GameState) (seat : Nat) (a : PAction) (amount : Int) :
      Step g (apply_action g seat a amount)
  | street (g : GameState) : Step g (next_street_or_showdown g)
  | manual (g : GameState) (cards : List Card) : Step g (manual_set_board g cards)
  | housekeeping (g : GameState) (t : Finset Nat) (o : Option Nat) :
      Step g { g with to_act := t, current_player_seat := o }
  | leave (g : GameState) (seat : Nat) : Step g (player_leave g seat)
  | kick (g : GameState) (seat : Nat) : Step g (hero_kick g seat)
  | softReset (g : GameState) : Step g (soft_reset g)
  | fullReset (g : GameState) : Step g GameState.initState

/-- Reachable table states: produced by any event sequence from `GameState()`. -/
def Reach (g : GameState) : Prop :=
  Relation.ReflTransGen Step GameState.initState g

/-! ### Basic facts about the action machinery -/

theorem callStats_players (g : GameState) (seat : Nat) (st0 : Option Street) (c : Int) :
    (callStats g seat st0 c).players = g.players := by
  unfold callStats; split <;> rfl

theorem callStats_pot (g : GameState) (seat : Nat) (st0 : Option Street) (c : Int) :
    (callStats g seat st0 c).pot = g.pot := by
  unfold callStats; split <;> rfl

theorem callStats_to_act (g : GameState) (seat : Nat) (st0 : Option Street) (c : Int) :
    (callStats g seat st0 c).to_act = g.to_act := by
  unfold callStats; split <;> rfl

theorem callStats_others (g : GameState) (seat : Nat) (st0 : Option Street) (c : Int) :
    (callStats g seat st0 c).hand_running = g.hand_running ∧
    (callStats g seat st0 c).hand_history = g.hand_history ∧
    (callStats g seat st0 c).street = g.street ∧
    (callStats g seat st0 c).deck = g.deck ∧
    (callStats g seat st0 c).board = g.board ∧
    (callStats g seat st0 c).full_board = g.full_board ∧
    (callStats g seat st0 c).current_bet = g.current_bet ∧
    (callStats g seat st0 c).current_player_seat = g.current_player_seat := by
  unfold callStats; split <;> exact ⟨rfl, rfl, rfl, rfl, rfl, rfl, rfl, rfl⟩

theorem raiseStats_players (g : GameState) (seat : Nat) (st0 : Option Street) (t : Int) :
    (raiseStats g seat st0 t).players = g.players := by
  unfold raiseStats; split <;> rfl

theorem raiseStats_pot (g : GameState) (seat : Nat) (st0 : Option Street) (t : Int) :
    (raiseStats g seat st0 t).pot = g.pot := by
  unfold raiseStats; split <;> rfl

theorem raiseStats_to_act (g : GameState) (seat : Nat) (st0 : Option Street) (t : Int) :
    (raiseStats g seat st0 t).to_act = g.to_act := by
  unfold raiseStats; split <;> rfl

theorem raiseStats_others (g : GameState) (seat : Nat) (st0 : Option Street) (t : Int) :
    (raiseStats g seat st0 t).hand_running = g.hand_running ∧
    (raiseStats g seat st0 t).hand_history = g.hand_history ∧
    (raiseStats g seat st0 t).street = g.street ∧
    (raiseStats g seat st0 t).deck = g.deck ∧
    (raiseStats g seat st0 t).board = g.board ∧
    (raiseStats g seat st0 t).full_board = g.full_board ∧
    (raiseStats g seat st0 t).current_bet = g.current_bet ∧
    (raiseStats g seat st0 t).current_player_seat = g.current_player_seat := by
  unfold raiseStats; split <;> exact ⟨rfl, rfl, rfl, rfl, rfl, rfl, rfl, rfl⟩

theorem raisePay_stats (g : GameState) (chips0 : Int) (seat : Nat) (t : Int) :
    (raisePay g chips0 seat t).stats = g.stats := by
  unfold raisePay; split <;> rfl

theorem raisePay_to_act (g : GameState) (chips0 : Int) (seat : Nat) (t : Int) :
    (raisePay g chips0 seat t).to_act = g.to_act := by
  unfold raisePay; split <;> rfl

theorem raisePay_others (g : GameState) (chips0 : Int) (seat : Nat) (t : Int) :
    (raisePay g chips0 seat t).hand_running = g.hand_running ∧
    (raisePay g chips0 seat t).hand_history = g.hand_history ∧
    (raisePay g chips0 seat t).street = g.street ∧
    (raisePay g chips0 seat t).deck = g.deck ∧
    (raisePay g chips0 seat t).board = g.board ∧
    (raisePay g chips0 seat t).full_board = g.full_board ∧
    (raisePay g chips0 seat t).current_bet = g.current_bet ∧
    (raisePay g chips0 seat t).current_player_seat = g.current_player_seat := by
  unfold raisePay; split <;> exact ⟨rfl, rfl, rfl, rfl, rfl, rfl, rfl, rfl⟩

theorem applyActionCore_preserved (g : GameState) (p : PlayerState) (seat : Nat)
    (a : PAction) (amount : Int) :
    (applyActionCore g p seat a amount).hand_running = g.hand_running ∧
    (applyActionCore g p seat a amount).hand_history = g.hand_history ∧
    (applyActionCore g p seat a amount).street = g.street ∧
    (applyActionCore g p seat a amount).deck = g.deck ∧
    (applyActionCore g p seat a amount).board = g.board ∧
    (applyActionCore g p seat a amount).full_board = g.full_board := by
  cases a
  · exact ⟨rfl, rfl, rfl, rfl, rfl, rfl⟩
  · exact ⟨rfl, rfl, rfl, rfl, rfl, rfl⟩
  · obtain ⟨h1, h2, h3, h4, h5, h6, _, _⟩ := callStats_others
      { g with
        players := updatePlayer g.players seat
          (fun p2 => { p2 with chips := p2.chips - min p.chips g.current_bet }),
        pot := g.pot + min p.chips g.current_bet,
        to_act := g.to_act.erase seat }
      seat g.street (min p.chips g.current_bet)
    exact ⟨h1, h2, h3, h4, h5, h6⟩
  · show ((raiseStats _ seat g.street _).hand_running = g.hand_running ∧ _)
    obtain ⟨r1, r2, r3, r4, r5, r6, _, _⟩ := raiseStats_others
      (setCurrentBet (raisePay g p.chips seat
          (min (min p.chips g.current_bet + amount) (p.chips + min p.chips g.current_bet)))
        (min (min p.chips g.current_bet + amount) (p.chips + min p.chips g.current_bet)))
      seat g.street
      (min (min p.chips g.current_bet + amount) (p.chips + min p.chips g.current_bet))
    obtain ⟨q1, q2, q3, q4, q5, q6, _, _⟩ := raisePay_others g p.chips seat
      (min (min p.chips g.current_bet + amount) (p.chips + min p.chips g.current_bet))
    exact ⟨r1.trans q1, r2.trans q2, r3.trans q3, r4.trans q4, r5.trans q5, r6.trans q6⟩

theorem applyActionCore_to_act_not_mem (g : GameState) (p : PlayerState) (seat : Nat)
    (a : PAction) (amount : Int) :
    seat ∉ (applyActionCore g p seat a amount).to_act := by
  cases a <;> simp only [applyActionCore]
  · exact Finset.not_mem_erase _ _
  · exact Finset.not_mem_erase _ _
  · unfold callStats
    split
    · exact Finset.not_mem_erase _ _
    · exact Finset.not_mem_erase _ _
  · simp [List.mem_toFinset, List.mem_filter]

theorem check_hand_end_preserves (g : GameState) :
    ((check_hand_end_if_one_left g).1).players = g.players ∧
    ((check_hand_end_if_one_left g).1).pot = g.pot ∧
    ((check_hand_end_if_one_left g).1).stats = g.stats ∧
    ((check_hand_end_if_one_left g).1).to_act = g.to_act ∧
    ((check_hand_end_if_one_left g).1).current_bet = g.current_bet ∧
    ((check_hand_end_if_one_left g).1).street = g.street ∧
    ((check_hand_end_if_one_left g).1).deck = g.deck ∧
    ((check_hand_end_if_one_left g).1).board = g.board ∧
    ((check_hand_end_if_one_left g).1).full_board = g.full_board ∧
    ((check_hand_end_if_one_left g).1).current_player_seat = g.current_player_seat := by
  unfold check_hand_end_if_one_left
  split <;> exact ⟨rfl, rfl, rfl, rfl, rfl, rfl, rfl, rfl, rfl, rfl⟩

/-- When the guard of `apply_action` holds, the result's pot, stats and
players are exactly those of the action branch (the fold-out check and the
seat advance touch neither). -/
theorem apply_action_fields (g : GameState) (seat : Nat) (a : PAction) (amount : Int)
    (p : PlayerState) (hfind : find_player_by_seat g seat = some p)
    (h : seat ∈ g.to_act ∧ g.hand_running = true) :
    (apply_action g seat a amount).pot = (applyActionCore g p seat a amount).pot ∧
    (apply_action g seat a amount).stats = (applyActionCore g p seat a amount).stats ∧
    (apply_action g seat a amount).players = (applyActionCore g p seat a amount).players ∧
    (apply_action g seat a amount).to_act = (applyActionCore g p seat a amount).to_act := by
  unfold apply_action
  rw [hfind]
  simp only [if_pos h]
  obtain ⟨h1, h2, h3, h4, _⟩ := check_hand_end_preserves (applyActionCore g p seat a amount)
  split
  · exact ⟨h2, h3, h1, h4⟩
  · exact ⟨h2, h3, h1, h4⟩

theorem check_hand_end_true_running {g : GameState}
    (h : (check_hand_end_if_one_left g).2 = true) :
    ((check_hand_end_if_one_left g).1).hand_running = false := by
  by_cases hcond : (active_seats g).length ≤ 1 ∧ g.hand_running = true
  · unfold check_hand_end_if_one_left
    rw [if_pos hcond]
  · unfold check_hand_end_if_one_left at h
    rw [if_neg hcond] at h
    exact Bool.noConfusion h

/-- C1 amended: an action event is honored (changes the state) if and only if
the submitting seat is still in to-act and the hand is running; any other
submission — in particular a duplicate from a seat already removed from
to-act — is a no-op leaving the whole state (pot, stacks, folded flags,
current-bet, to-act, current-seat) unchanged. Being the seat on turn
(`current_player_seat`) is NOT required. -/
theorem apply_action_noop_iff_not_owing (g : GameState) (seat : Nat) (a : PAction)
    (amount : Int) (p : PlayerState) (hfind : find_player_by_seat g seat = some p) :
    apply_action g seat a amount = g ↔ (seat ∉ g.to_act ∨ g.hand_running = false) := by
  simp only [apply_action, hfind]
  by_cases hg : seat ∈ g.to_act ∧ g.hand_running = true
  · rw [if_pos hg]
    constructor
    · intro heq
      exfalso
      have hnotmem := applyActionCore_to_act_not_mem g p seat a amount
      by_cases hc : (check_hand_end_if_one_left (applyActionCore g p seat a amount)).2 = true
      · rw [if_pos hc] at heq
        have hrun := check_hand_end_true_running hc
        rw [heq, hg.2] at hrun
        exact Bool.noConfusion hrun
      · rw [if_neg hc] at heq
        have h2 := (check_hand_end_preserves (applyActionCore g p seat a amount)).2.2.2.1
        have h3 := congrArg GameState.to_act heq
        have h4 : (applyActionCore g p seat a amount).to_act = g.to_act := by
          rw [← h2]; exact h3
        rw [h4] at hnotmem
        exact hnotmem hg.1
    · intro hcond
      rcases hcond with h | h
      · exact absurd hg.1 h
      · exact Bool.noConfusion (hg.2.symm.trans h)
  · rw [if_neg hg]
    constructor
    · intro _
      by_cases hm : seat ∈ g.to_act
      · cases hr : g.hand_running
        · exact Or.inr rfl
        · exact absurd ⟨hm, hr⟩ hg
      · exact Or.inl hm
    · intro _
      rfl

/-- A reachable two-seat table: two joins and a deal from the identity
permutation of the deck (any permutation is a possible shuffle). -/
def demoTwoSeats : GameState := on_join (on_join GameState.initState "a") "b"

def demoTwoDealt : GameState :=
  (deal_new_hand deck52 [] [] demoTwoSeats).getD GameState.initState

/-- C1 counterexample: in the freshly dealt two-seat hand, seat 1 is the
current seat and seat 2 is merely in to-act; the out-of-turn CHECK submitted
by seat 2 is honored (seat 2 disappears from to-act) rather than being
dropped as a no-op, refuting the claim that only the seat on turn is honored. -/
theorem out_of_turn_action_is_honored :
    deal_new_hand deck52 [] [] demoTwoSeats = some demoTwoDealt ∧
    demoTwoDealt.hand_running = true ∧
    demoTwoDealt.current_player_seat = some 1 ∧
    2 ∈ demoTwoDealt.to_act ∧ (2 : Nat) ≠ 1 ∧
    (apply_action demoTwoDealt 2 PAction.CHECK 0).to_act ≠ demoTwoDealt.to_act := by
  have h1 : demoTwoDealt.to_act.val.count 2 = 1 := by decide
  have h0 : (apply_action demoTwoDealt 2 PAction.CHECK 0).to_act.val.count 2 = 0 := by decide
  refine ⟨rfl, rfl, rfl, ?_, by decide, ?_⟩
  · exact Finset.mem_def.mpr (Multiset.count_pos.mp (by rw [h1]; omega))
  · intro h
    rw [h, h1] at h0
    exact Nat.noConfusion h0

/-- Witness for the amended C1 at a concrete reachable input: seat 2 of the
dealt demo hand is in to-act, so its action is not a no-op; after it checks,
a second CHECK from seat 2 is a no-op. -/
theorem apply_action_noop_iff_not_owing_witness :
    (apply_action demoTwoDealt 2 PAction.CHECK 0 = demoTwoDealt
      ↔ (2 ∉ demoTwoDealt.to_act ∨ demoTwoDealt.hand_running = false)) ∧
    (apply_action (apply_action demoTwoDealt 2 PAction.CHECK 0) 2 PAction.CHECK 0
      = apply_action demoTwoDealt 2 PAction.CHECK 0) := by
  have h0 : (apply_action demoTwoDealt 2 PAction.CHECK 0).to_act.val.count 2 = 0 := by decide
  constructor
  · exact apply_action_noop_iff_not_owing demoTwoDealt 2 PAction.CHECK 0
      { seat := 2, name := "b", is_hero := false, chips := 1000,
        hole_cards := [⟨13, 0⟩, ⟨12, 3⟩], folded := false } (by decide)
  · refine (apply_action_noop_iff_not_owing (apply_action demoTwoDealt 2 PAction.CHECK 0) 2
      PAction.CHECK 0
      { seat := 2, name := "b", is_hero := false, chips := 1000,
        hole_cards := [⟨13, 0⟩, ⟨12, 3⟩], folded := false } (by decide)).mpr (Or.inl ?_)
    intro hm
    have := Multiset.count_pos.mpr (Finset.mem_def.mp hm)
    rw [h0] at this
    omega

/-- C4: in a running hand, when an honored action leaves at most one active
(non-folded) seat, the hand ends immediately: `hand_running` becomes false and
exactly one `HandRecord` is appended, whose rows mark precisely the non-folded
players as winners (the sole remaining seat, if any) — irrespective of which
seats were still in to-act. -/
theorem action_leaving_one_active_ends_hand (g : GameState) (seat : Nat) (a : PAction)
    (amount : Int) (p : PlayerState) (hfind : find_player_by_seat g seat = some p)
    (hact : seat ∈ g.to_act) (hrun : g.hand_running = true)
    (hone : (active_seats (applyActionCore g p seat a amount)).length ≤ 1) :
    (apply_action g seat a amount).hand_running = false ∧
    ∃ r, (apply_action g seat a amount).hand_history = g.hand_history ++ [r] ∧
      r.players = (applyActionCore g p seat a amount).players.map foldoutRow ∧
      ∀ row ∈ r.players, row.winner = !row.folded := by
  have hpres := applyActionCore_preserved g p seat a amount
  have hrun1 : (applyActionCore g p seat a amount).hand_running = true := by
    rw [hpres.1]; exact hrun
  have hcond : (active_seats (applyActionCore g p seat a amount)).length ≤ 1 ∧
      (applyActionCore g p seat a amount).hand_running = true := ⟨hone, hrun1⟩
  have hcheck : check_hand_end_if_one_left (applyActionCore g p seat a amount)
      = ({ applyActionCore g p seat a amount with
            hand_history := (applyActionCore g p seat a amount).hand_history ++
              [{ board := (applyActionCore g p seat a amount).board,
                 note := foldoutNote
                   ((applyActionCore g p seat a amount).players.map foldoutRow),
                 players := (applyActionCore g p seat a amount).players.map foldoutRow }],
            hand_running := false }, true) := by
    unfold check_hand_end_if_one_left
    rw [if_pos hcond]
  simp only [apply_action, hfind, if_pos (And.intro hact hrun), hcheck]
  refine ⟨rfl, ⟨⟨(applyActionCore g p seat a amount).board,
      foldoutNote ((applyActionCore g p seat a amount).players.map foldoutRow),
      (applyActionCore g p seat a amount).players.map foldoutRow⟩, ?_, rfl, ?_⟩⟩
  · rw [hpres.2.1]
    simp
  · intro row hrow
    obtain ⟨q, _, rfl⟩ := List.mem_map.mp hrow
    rfl

/-- Witness for C4: seat 1 of the freshly dealt two-seat hand folds, leaving
one active seat; the hand ends with one appended record marking non-folded
rows as winners. -/
theorem action_leaving_one_active_ends_hand_witness :
    (apply_action demoTwoDealt 1 PAction.FOLD 0).hand_running = false ∧
    ∃ r, (apply_action demoTwoDealt 1 PAction.FOLD 0).hand_history
        = demoTwoDealt.hand_history ++ [r] ∧
      r.players = (applyActionCore demoTwoDealt
        { seat := 1, name := "a", is_hero := false, chips := 1000,
          hole_cards := [⟨13, 2⟩, ⟨13, 1⟩], folded := false }
        1 PAction.FOLD 0).players.map foldoutRow ∧
      ∀ row ∈ r.players, row.winner = !row.folded := by
  have h1 : demoTwoDealt.to_act.val.count 1 = 1 := by decide
  exact action_leaving_one_active_ends_hand demoTwoDealt 1 PAction.FOLD 0
    { seat := 1, name := "a", is_hero := false, chips := 1000,
      hole_cards := [⟨13, 2⟩, ⟨13, 1⟩], folded := false }
    (by decide)
    (Finset.mem_def.mpr (Multiset.count_pos.mp (by rw [h1]; omega)))
    rfl
    (by decide)

theorem dealHoles_folded (hero : List Card) : ∀ (ps : List PlayerState) (deck : List Card)
    (ps2 : List PlayerState) (d2 : List Card),
    dealHoles hero ps deck = some (ps2, d2) →
    ∀ p2 ∈ ps2, ∃ q ∈ ps, p2.folded = q.folded := by
  intro ps
  induction ps with
  | nil =>
    intro deck ps2 d2 h p2 hp2
    unfold dealHoles at h
    obtain ⟨h1, _⟩ := Prod.mk.injEq .. ▸ Option.some.inj h
    rw [← h1] at hp2
    simp at hp2
  | cons p ps ih =>
    intro deck ps2 d2 h p2 hp2
    unfold dealHoles at h
    split at h
    · obtain ⟨⟨ps1, d1⟩, hrec, heq⟩ := Option.map_eq_some'.mp h
      obtain ⟨heq1, _⟩ := Prod.mk.injEq .. ▸ heq
      rw [← heq1] at hp2
      rcases List.mem_cons.mp hp2 with rfl | hmem
      · exact ⟨p, List.mem_cons_self _ _, rfl⟩
      · obtain ⟨q, hq, he⟩ := ih _ _ _ hrec p2 hmem
        exact ⟨q, List.mem_cons_of_mem _ hq, he⟩
    · split at h
      · exact Option.noConfusion h
      · split at h
        · exact Option.noConfusion h
        · obtain ⟨⟨ps1, d1⟩, hrec, heq⟩ := Option.map_eq_some'.mp h
          obtain ⟨heq1, _⟩ := Prod.mk.injEq .. ▸ heq
          rw [← heq1] at hp2
          rcases List.mem_cons.mp hp2 with rfl | hmem
          · exact ⟨p, List.mem_cons_self _ _, rfl⟩
          · obtain ⟨q, hq, he⟩ := ih _ _ _ hrec p2 hmem
            exact ⟨q, List.mem_cons_of_mem _ hq, he⟩

/-- C9 amended: after a successful deal, to-act is exactly the set of all
active (non-folded) seats — and every seat is active, since folded flags are
reset — while the current seat is the seat of the FIRST player in
player-list (insertion) order, not the lowest active seat index. -/
theorem deal_sets_to_act_all_and_first_in_list_order
    (shuffled hero_cards board_cards : List Card)
    (g g2 : GameState) (h : deal_new_hand shuffled hero_cards board_cards g = some g2) :
    g2.to_act = (active_seats g2).toFinset ∧
    g2.current_player_seat = (active_seats g2).head? ∧
    ∀ p ∈ g2.players, p.folded = false := by
  simp only [deal_new_hand, Option.bind_eq_some] at h
  obtain ⟨fb, hfb, pd, hpd, h⟩ := h
  have hg2 := Option.some.inj h
  subst hg2
  refine ⟨rfl, rfl, ?_⟩
  intro p2 hp2
  obtain ⟨q, hq, he⟩ := dealHoles_folded hero_cards _ _ _ _ hpd p2 hp2
  obtain ⟨q0, _, rfl⟩ := List.mem_map.mp hq
  exact he

/-- A reachable player-list whose seat order is not ascending: "a" takes seat
1 and "b" seat 2, then "a" leaves and "c" joins, getting the freed seat 1 but
a position AFTER "b" in the list. -/
def demoJoinLeave : GameState :=
  on_join (player_leave (on_join (on_join GameState.initState "a") "b") 1) "c"

def demoJLDealt : GameState :=
  (deal_new_hand deck52 [] [] demoJoinLeave).getD GameState.initState

/-- C9 counterexample: dealing to the players list [seat 2, seat 1] sets
to-act = {1, 2} (all active seats — that half of the claim holds) but makes
seat 2, the first in list order, the current seat, although the lowest active
seat index is 1. -/
theorem deal_current_seat_not_lowest_active :
    deal_new_hand deck52 [] [] demoJoinLeave = some demoJLDealt ∧
    demoJLDealt.to_act.val.count 1 = 1 ∧ demoJLDealt.to_act.val.count 2 = 1 ∧
    List.insertionSort (fun a b => a ≤ b) (active_seats demoJLDealt) = [1, 2] ∧
    demoJLDealt.current_player_seat = some 2 ∧
    demoJLDealt.current_player_seat ≠ some 1 := by
  exact ⟨rfl, by decide, by decide, by decide, rfl, by decide⟩

/-- Witness for the amended C9 at the concrete two-seat deal. -/
theorem deal_sets_to_act_all_and_first_in_list_order_witness :
    demoTwoDealt.to_act = (active_seats demoTwoDealt).toFinset ∧
    demoTwoDealt.current_player_seat = (active_seats demoTwoDealt).head? ∧
    ∀ p ∈ demoTwoDealt.players, p.folded = false :=
  deal_sets_to_act_all_and_first_in_list_order deck52 [] [] demoTwoSeats demoTwoDealt rfl

theorem statsFind_statsUpdate_self (st : List (Nat × PlayerStats)) (seat : Nat)
    (f : PlayerStats → PlayerStats) :
    statsFind (statsUpdate st seat f) seat = (statsFind st seat).map f := by
  induction st with
  | nil => rfl
  | cons e es ih =>
    by_cases h : e.1 = seat
    · simp [statsUpdate, statsFind, h]
    · simp only [statsUpdate, if_neg h]
      simp only [statsFind] at ih ⊢
      rw [List.find?_cons_of_neg, List.find?_cons_of_neg]
      · exact ih
      · simp [h]
      · simp [h]

theorem raiseStats_stats_eq (X : GameState) (seat : Nat) (st0 : Option Street) (t : Int) :
    (raiseStats X seat st0 t).stats
      = if st0 = some Street.preflop ∧ (statsFind X.stats seat).isSome ∧ 0 < t
        then statsUpdate X.stats seat (fun s =>
          { s with vpip_hands := s.vpip_hands + 1, pfr_hands := s.pfr_hands + 1 })
        else X.stats := by
  unfold raiseStats
  split <;> simp_all

theorem raise_core_pot_stats (g : GameState) (p : PlayerState) (seat : Nat) (amount : Int) :
    (applyActionCore g p seat PAction.RAISE amount).pot - g.pot
      = (if 0 < min (min p.chips g.current_bet + amount) (p.chips + min p.chips g.current_bet)
         then (if p.chips < min (min p.chips g.current_bet + amount)
                    (p.chips + min p.chips g.current_bet)
               then p.chips
               else min (min p.chips g.current_bet + amount)
                    (p.chips + min p.chips g.current_bet))
         else 0) ∧
    (applyActionCore g p seat PAction.RAISE amount).stats
      = (if g.street = some Street.preflop ∧ (statsFind g.stats seat).isSome ∧
            0 < min (min p.chips g.current_bet + amount) (p.chips + min p.chips g.current_bet)
         then statsUpdate g.stats seat (fun s =>
            { s with vpip_hands := s.vpip_hands + 1, pfr_hands := s.pfr_hands + 1 })
         else g.stats) := by
  constructor
  · show ((raiseStats _ seat g.street _).pot - g.pot = _)
    rw [raiseStats_pot]
    show (raisePay g p.chips seat _).pot - g.pot = _
    unfold raisePay
    split
    · split <;> simp
    · simp
  · show ((raiseStats _ seat g.street _).stats = _)
    rw [raiseStats_stats_eq]
    have hs : (setCurrentBet (raisePay g p.chips seat
        (min (min p.chips g.current_bet + amount) (p.chips + min p.chips g.current_bet)))
        (min (min p.chips g.current_bet + amount) (p.chips + min p.chips g.current_bet))).stats
        = g.stats := raisePay_stats g p.chips seat _
    rw [hs]

/-- C8: an honored preflop RAISE increments the raiser's vpip_hands and
pfr_hands by one exactly when the amount actually paid into the pot (the pot
delta) is positive; when nothing is paid — e.g. a seat with zero chips, whose
clamped total bet is then non-positive — neither counter changes. -/
theorem raise_preflop_counters_iff_paid (g : GameState) (seat : Nat) (amount : Int)
    (p : PlayerState) (st : PlayerStats)
    (hfind : find_player_by_seat g seat = some p)
    (hact : seat ∈ g.to_act) (hrun : g.hand_running = true)
    (hpre : g.street = some Street.preflop)
    (hst : statsFind g.stats seat = some st) :
    statsFind (apply_action g seat PAction.RAISE amount).stats seat
      = some { st with
          vpip_hands := st.vpip_hands +
            (if 0 < (apply_action g seat PAction.RAISE amount).pot - g.pot then 1 else 0),
          pfr_hands := st.pfr_hands +
            (if 0 < (apply_action g seat PAction.RAISE amount).pot - g.pot then 1 else 0) } := by
  obtain ⟨hpot, hstats, _, _⟩ :=
    apply_action_fields g seat PAction.RAISE amount p hfind ⟨hact, hrun⟩
  obtain ⟨hcp, hcs⟩ := raise_core_pot_stats g p seat amount
  have hdelta : (apply_action g seat PAction.RAISE amount).pot - g.pot
      = (if 0 < min (min p.chips g.current_bet + amount) (p.chips + min p.chips g.current_bet)
         then (if p.chips < min (min p.chips g.current_bet + amount)
                    (p.chips + min p.chips g.current_bet)
               then p.chips
               else min (min p.chips g.current_bet + amount)
                    (p.chips + min p.chips g.current_bet))
         else 0) := by
    rw [hpot]; exact hcp
  rw [hdelta]
  by_cases ht : 0 < min (min p.chips g.current_bet + amount) (p.chips + min p.chips g.current_bet)
  · have hpay : (0 : Int) <
        (if 0 < min (min p.chips g.current_bet + amount) (p.chips + min p.chips g.current_bet)
         then (if p.chips < min (min p.chips g.current_bet + amount)
                    (p.chips + min p.chips g.current_bet)
               then p.chips
               else min (min p.chips g.current_bet + amount)
                    (p.chips + min p.chips g.current_bet))
         else 0) := by
      rw [if_pos ht]
      split
      · next hlt => omega
      · omega
    rw [hstats, hcs, if_pos ⟨hpre, by rw [hst]; rfl, ht⟩]
    rw [statsFind_statsUpdate_self, hst, if_pos hpay]
    rfl
  · have hpay0 : (if 0 < min (min p.chips g.current_bet + amount)
          (p.chips + min p.chips g.current_bet)
         then (if p.chips < min (min p.chips g.current_bet + amount)
                    (p.chips + min p.chips g.current_bet)
               then p.chips
               else min (min p.chips g.current_bet + amount)
                    (p.chips + min p.chips g.current_bet))
         else 0) = (0 : Int) := if_neg ht
    rw [hstats, hcs, if_neg (fun hc => ht hc.2.2), hst, hpay0]
    simp

/-- Witness for C8: seat 1 of the dealt demo hand raises 10 preflop, pays 10
into the pot, and both counters go from 0 to 1. -/
theorem raise_preflop_counters_iff_paid_witness :
    statsFind (apply_action demoTwoDealt 1 PAction.RAISE 10).stats 1
      = some { hands_played := 1, vpip_hands := 0 + (ite (0 < (apply_action demoTwoDealt 1 PAction.RAISE 10).pot - demoTwoDealt.pot) 1 0), pfr_hands := 0 + (ite (0 < (apply_action demoTwoDealt 1 PAction.RAISE 10).pot - demoTwoDealt.pot) 1 0) } := by
  have h1 : demoTwoDealt.to_act.val.count 1 = 1 := by decide
  exact raise_preflop_counters_iff_paid demoTwoDealt 1 10
    { seat := 1, name := "a", is_hero := false, chips := 1000,
      hole_cards := [⟨13, 2⟩, ⟨13, 1⟩], folded := false }
    { hands_played := 1, vpip_hands := 0, pfr_hands := 0 }
    (by decide)
    (Finset.mem_def.mpr (Multiset.count_pos.mp (by rw [h1]; omega)))
    rfl rfl (by decide)

theorem mem_updatePlayer : ∀ (ps : List PlayerState) (seat : Nat)
    (f : PlayerState → PlayerState) (q : PlayerState),
    q ∈ updatePlayer ps seat f → q ∈ ps ∨ ∃ p0, p0 ∈ ps ∧ q = f p0 := by
  intro ps
  induction ps with
  | nil => intro seat f q hq; exact absurd hq (by simp [updatePlayer])
  | cons x xs ih =>
    intro seat f q hq
    unfold updatePlayer at hq
    split at hq
    · rcases List.mem_cons.mp hq with rfl | hmem
      · exact Or.inr ⟨x, List.mem_cons_self _ _, rfl⟩
      · exact Or.inl (List.mem_cons_of_mem _ hmem)
    · rcases List.mem_cons.mp hq with rfl | hmem
      · exact Or.inl (List.mem_cons_self _ _)
      · rcases ih seat f q hmem with h1 | ⟨p0, hp0, he⟩
        · exact Or.inl (List.mem_cons_of_mem _ h1)
        · exact Or.inr ⟨p0, List.mem_cons_of_mem _ hp0, he⟩

theorem mem_updatePlayer_find : ∀ (ps : List PlayerState) (seat : Nat)
    (f : PlayerState → PlayerState) (p : PlayerState),
    ps.find? (fun x => x.seat == seat) = some p →
    ∀ q ∈ updatePlayer ps seat f, q ∈ ps ∨ q = f p := by
  intro ps
  induction ps with
  | nil => intro seat f p h; exact absurd h (by simp)
  | cons x xs ih =>
    intro seat f p h q hq
    by_cases hx : x.seat = seat
    · rw [List.find?_cons_of_pos _ (by simp [hx])] at h
      have hp := Option.some.inj h
      unfold updatePlayer at hq
      rw [if_pos hx] at hq
      rcases List.mem_cons.mp hq with rfl | hmem
      · exact Or.inr (by rw [hp])
      · exact Or.inl (List.mem_cons_of_mem _ hmem)
    · rw [List.find?_cons_of_neg _ (by simp [hx])] at h
      unfold updatePlayer at hq
      rw [if_neg hx] at hq
      rcases List.mem_cons.mp hq with rfl | hmem
      · exact Or.inl (List.mem_cons_self _ _)
      · rcases ih seat f p h q hmem with h1 | h1
        · exact Or.inl (List.mem_cons_of_mem _ h1)
        · exact Or.inr h1

theorem mem_removeFirstSeat : ∀ (ps : List PlayerState) (seat : Nat) (q : PlayerState),
    q ∈ removeFirstSeat ps seat → q ∈ ps := by
  intro ps
  induction ps with
  | nil => intro seat q hq; exact absurd hq (by simp [removeFirstSeat])
  | cons x xs ih =>
    intro seat q hq
    unfold removeFirstSeat at hq
    split at hq
    · exact List.mem_cons_of_mem _ hq
    · rcases List.mem_cons.mp hq with rfl | hmem
      · exact List.mem_cons_self _ _
      · exact List.mem_cons_of_mem _ (ih seat q hmem)

theorem next_street_players (g : GameState) :
    (next_street_or_showdown g).players = g.players := by
  unfold next_street_or_showdown
  split
  · split <;> rfl
  · rfl

theorem manual_set_board_players (g : GameState) (cards : List Card) :
    (manual_set_board g cards).players = g.players := by
  simp only [manual_set_board]
  repeat' split
  all_goals rfl

theorem dealHoles_chips (hero : List Card) : ∀ (ps : List PlayerState) (deck : List Card)
    (ps2 : List PlayerState) (d2 : List Card),
    dealHoles hero ps deck = some (ps2, d2) →
    ∀ p2 ∈ ps2, ∃ q ∈ ps, p2.chips = q.chips := by
  intro ps
  induction ps with
  | nil =>
    intro deck ps2 d2 h p2 hp2
    unfold dealHoles at h
    obtain ⟨h1, _⟩ := Prod.mk.injEq .. ▸ Option.some.inj h
    rw [← h1] at hp2
    simp at hp2
  | cons p ps ih =>
    intro deck ps2 d2 h p2 hp2
    unfold dealHoles at h
    split at h
    · obtain ⟨⟨ps1, d1⟩, hrec, heq⟩ := Option.map_eq_some'.mp h
      obtain ⟨heq1, _⟩ := Prod.mk.injEq .. ▸ heq
      rw [← heq1] at hp2
      rcases List.mem_cons.mp hp2 with rfl | hmem
      · exact ⟨p, List.mem_cons_self _ _, rfl⟩
      · obtain ⟨q, hq, he⟩ := ih _ _ _ hrec p2 hmem
        exact ⟨q, List.mem_cons_of_mem _ hq, he⟩
    · split at h
      · exact Option.noConfusion h
      · split at h
        · exact Option.noConfusion h
        · obtain ⟨⟨ps1, d1⟩, hrec, heq⟩ := Option.map_eq_some'.mp h
          obtain ⟨heq1, _⟩ := Prod.mk.injEq .. ▸ heq
          rw [← heq1] at hp2
          rcases List.mem_cons.mp hp2 with rfl | hmem
          · exact ⟨p, List.mem_cons_self _ _, rfl⟩
          · obtain ⟨q, hq, he⟩ := ih _ _ _ hrec p2 hmem
            exact ⟨q, List.mem_cons_of_mem _ hq, he⟩

theorem applyActionCore_chips (g : GameState) (p : PlayerState) (seat : Nat)
    (a : PAction) (amount : Int)
    (hfind : find_player_by_seat g seat = some p)
    (h : ∀ q ∈ g.players, 0 ≤ q.chips) :
    (∀ q ∈ (applyActionCore g p seat a amount).players, 0 ≤ q.chips) ∧
    (applyActionCore g p seat a amount).pot - g.pot ≤ p.chips := by
  unfold find_player_by_seat at hfind
  have hp : p ∈ g.players := List.mem_of_find?_eq_some hfind
  have hp0 : 0 ≤ p.chips := h p hp
  cases a
  case FOLD =>
    refine ⟨?_, by show g.pot - g.pot ≤ p.chips; omega⟩
    intro q hq
    rcases mem_updatePlayer _ _ _ _ hq with h1 | ⟨p0, hp0m, rfl⟩
    · exact h q h1
    · exact h p0 hp0m
  case CHECK =>
    exact ⟨h, by show g.pot - g.pot ≤ p.chips; omega⟩
  case CALL =>
    constructor
    · intro q hq
      rw [show (applyActionCore g p seat PAction.CALL amount).players
          = updatePlayer g.players seat
            (fun p2 => { p2 with chips := p2.chips - min p.chips g.current_bet })
        from callStats_players _ _ _ _] at hq
      rcases mem_updatePlayer_find _ _ _ _ hfind q hq with h1 | rfl
      · exact h q h1
      · show 0 ≤ p.chips - min p.chips g.current_bet
        omega
    · rw [show (applyActionCore g p seat PAction.CALL amount).pot
          = g.pot + min p.chips g.current_bet from callStats_pot _ _ _ _]
      omega
  case RAISE =>
    obtain ⟨hcp, _⟩ := raise_core_pot_stats g p seat amount
    constructor
    · intro q hq
      rw [show (applyActionCore g p seat PAction.RAISE amount).players
          = (raisePay g p.chips seat (min (min p.chips g.current_bet + amount)
              (p.chips + min p.chips g.current_bet))).players
        from raiseStats_players _ _ _ _] at hq
      unfold raisePay at hq
      split at hq
      · rcases mem_updatePlayer_find _ _ _ _ hfind q hq with h1 | rfl
        · exact h q h1
        · show 0 ≤ p.chips - _
          split <;> omega
      · exact h q hq
    · rw [hcp]
      split
      · split <;> omega
      · omega

theorem apply_action_chips (g : GameState) (h : ∀ q ∈ g.players, 0 ≤ q.chips)
    (seat : Nat) (a : PAction) (amount : Int) :
    (∀ q ∈ (apply_action g seat a amount).players, 0 ≤ q.chips) ∧
    (∀ p, find_player_by_seat g seat = some p →
      (apply_action g seat a amount).pot - g.pot ≤ p.chips) := by
  cases hfind : find_player_by_seat g seat with
  | none =>
    simp only [apply_action, hfind]
    exact ⟨h, fun p hp => absurd hp (by simp)⟩
  | some p =>
    by_cases hg : seat ∈ g.to_act ∧ g.hand_running = true
    · obtain ⟨hpot, _, hplayers, _⟩ := apply_action_fields g seat a amount p hfind hg
      obtain ⟨hch, hpay⟩ := applyActionCore_chips g p seat a amount hfind h
      constructor
      · rw [hplayers]; exact hch
      · intro p2 hp2
        have he : p2 = p := (Option.some.inj hp2).symm
        subst he
        rw [hpot]
        exact hpay
    · simp only [apply_action, hfind, if_neg hg]
      refine ⟨h, ?_⟩
      intro p2 hp2
      have he : p2 = p := (Option.some.inj hp2).symm
      subst he
      have := h p2 (List.mem_of_find?_eq_some (by unfold find_player_by_seat at hfind; exact hfind))
      omega

theorem on_join_chips (g : GameState) (name : String)
    (h : ∀ q ∈ g.players, 0 ≤ q.chips) :
    ∀ q ∈ (on_join g name).players, 0 ≤ q.chips := by
  unfold on_join
  split
  · exact h
  · split
    · exact h
    · intro q hq
      rcases List.mem_append.mp hq with h1 | h1
      · exact h q h1
      · rw [List.mem_singleton.mp h1]
        norm_num

theorem deal_chips (shuffled hero_cards board_cards : List Card) (g g2 : GameState)
    (h : deal_new_hand shuffled hero_cards board_cards g = some g2) :
    ∀ q ∈ g2.players, 0 ≤ q.chips := by
  simp only [deal_new_hand, Option.bind_eq_some] at h
  obtain ⟨fb, _, pd, hpd, h⟩ := h
  have hg2 := Option.some.inj h
  subst hg2
  intro q hq
  obtain ⟨q0, hq0, he⟩ := dealHoles_chips hero_cards _ _ _ _ hpd q hq
  obtain ⟨q1, _, rfl⟩ := List.mem_map.mp hq0
  rw [he]
  norm_num

theorem player_leave_chips (g : GameState) (seat : Nat)
    (h : ∀ q ∈ g.players, 0 ≤ q.chips) :
    ∀ q ∈ (player_leave g seat).players, 0 ≤ q.chips := by
  unfold player_leave
  split
  · exact h
  · intro q hq
    have hq2 := mem_removeFirstSeat _ _ _ hq
    split at hq2
    · rw [(check_hand_end_preserves _).1] at hq2
      rcases mem_updatePlayer _ _ _ _ hq2 with h1 | ⟨p0, hp0m, rfl⟩
      · exact h q h1
      · exact h p0 hp0m
    · exact h q hq2

theorem ensure_hero_chips (g : GameState)
    (h : ∀ q ∈ g.players, 0 ≤ q.chips) :
    ∀ q ∈ (ensure_hero g).players, 0 ≤ q.chips := by
  unfold ensure_hero
  split
  · exact h
  · intro q hq
    rcases List.mem_cons.mp hq with rfl | hmem
    · norm_num
    · exact h q hmem

theorem soft_reset_chips (g : GameState)
    (h : ∀ q ∈ g.players, 0 ≤ q.chips) :
    ∀ q ∈ (soft_reset g).players, 0 ≤ q.chips := by
  intro q hq
  obtain ⟨q0, hq0, rfl⟩ := List.mem_map.mp hq
  exact h q0 hq0

theorem step_chips {g g2 : GameState} (hs : Step g g2)
    (h : ∀ q ∈ g.players, 0 ≤ q.chips) : ∀ q ∈ g2.players, 0 ≤ q.chips := by
  cases hs with
  | join name => exact on_join_chips g name h
  | heroEnsure => exact ensure_hero_chips g h
  | deal x1 x2 x3 x4 x5 x6 =>
    exact deal_chips x2 x3 x4 g g2 x6
  | action seat a amount => exact (apply_action_chips g h seat a amount).1
  | street => rw [next_street_players]; exact h
  | manual cards => rw [manual_set_board_players]; exact h
  | housekeeping t o => exact h
  | leave seat => exact player_leave_chips g seat h
  | kick seat =>
    unfold hero_kick
    split
    · exact h
    · exact player_leave_chips g seat h
  | softReset => exact soft_reset_chips g h
  | fullReset => intro q hq; exact absurd hq (by simp [GameState.initState])

/-- C6: in every reachable table state all chip stacks are non-negative, and
for every seat and every applied action (CALL or RAISE with a non-negative
amount — or any other action) the amount paid into the pot (the pot delta)
never exceeds the acting seat's current stack, so stacks stay non-negative
after the action as well. -/
theorem reachable_chips_nonneg_and_payment_le_stack (g : GameState) (hreach : Reach g) :
    (∀ q ∈ g.players, 0 ≤ q.chips) ∧
    (∀ (seat : Nat) (a : PAction) (amount : Int) (p : PlayerState), 0 ≤ amount →
      find_player_by_seat g seat = some p →
      (apply_action g seat a amount).pot - g.pot ≤ p.chips ∧
      ∀ q ∈ (apply_action g seat a amount).players, 0 ≤ q.chips) := by
  have hinv : ∀ q ∈ g.players, 0 ≤ q.chips := by
    induction hreach with
    | refl => intro q hq; exact absurd hq (by simp [GameState.initState])
    | tail _ hs ih => exact step_chips hs ih
  refine ⟨hinv, ?_⟩
  intro seat a amount p _ hfind
  obtain ⟨hch, hpay⟩ := apply_action_chips g hinv seat a amount
  exact ⟨hpay p hfind, hch⟩

theorem reach_demoTwoDealt : Reach demoTwoDealt := by
  have s1 : Step GameState.initState (on_join GameState.initState "a") :=
    Step.join GameState.initState "a"
  have s2 : Step (on_join GameState.initState "a") demoTwoSeats :=
    Step.join (on_join GameState.initState "a") "b"
  have s3 : Step demoTwoSeats demoTwoDealt :=
    Step.deal demoTwoSeats demoTwoDealt deck52 [] [] (List.Perm.refl deck52) rfl
  exact Relation.ReflTransGen.tail (Relation.ReflTransGen.tail
    (Relation.ReflTransGen.single s1) s2) s3

/-- Witness for C6 at the reachable dealt two-seat state: seat 1 calls with
amount 0; the payment is bounded by its 1000-chip stack and all stacks stay
non-negative. -/
theorem reachable_chips_nonneg_and_payment_le_stack_witness :
    (∀ q ∈ demoTwoDealt.players, 0 ≤ q.chips) ∧
    ((apply_action demoTwoDealt 1 PAction.CALL 0).pot - demoTwoDealt.pot ≤ (1000 : Int) ∧
     ∀ q ∈ (apply_action demoTwoDealt 1 PAction.CALL 0).players, 0 ≤ q.chips) := by
  obtain ⟨h1, h2⟩ :=
    reachable_chips_nonneg_and_payment_le_stack demoTwoDealt reach_demoTwoDealt
  exact ⟨h1, h2 1 PAction.CALL 0
    { seat := 1, name := "a", is_hero := false, chips := 1000,
      hole_cards := [⟨13, 2⟩, ⟨13, 1⟩], folded := false }
    (by norm_num) (by decide)⟩

theorem callStats_stats_eq (X : GameState) (seat : Nat) (st0 : Option Street) (c : Int) :
    (callStats X seat st0 c).stats
      = if st0 = some Street.preflop ∧ (statsFind X.stats seat).isSome ∧ 0 < c
        then statsUpdate X.stats seat (fun s => { s with vpip_hands := s.vpip_hands + 1 })
        else X.stats := by
  unfold callStats
  split <;> simp_all

theorem call_core_pot_stats (g : GameState) (p : PlayerState) (seat : Nat) (amount : Int) :
    (applyActionCore g p seat PAction.CALL amount).pot - g.pot = min p.chips g.current_bet ∧
    (applyActionCore g p seat PAction.CALL amount).stats
      = (if g.street = some Street.preflop ∧ (statsFind g.stats seat).isSome ∧
            0 < min p.chips g.current_bet
         then statsUpdate g.stats seat (fun s => { s with vpip_hands := s.vpip_hands + 1 })
         else g.stats) := by
  constructor
  · show ((callStats _ seat g.street _).pot - g.pot = _)
    rw [callStats_pot]
    show g.pot + min p.chips g.current_bet - g.pot = _
    omega
  · show ((callStats _ seat g.street _).stats = _)
    rw [callStats_stats_eq]

def demoThreeSeats : GameState :=
  on_join (on_join (on_join GameState.initState "a") "b") "c"

def demoThreeDealt : GameState :=
  (deal_new_hand deck52 [] [] demoThreeSeats).getD GameState.initState

def demoAfterRaise : GameState := apply_action demoThreeDealt 2 PAction.RAISE 10

def demoC10Final : GameState :=
  apply_action (apply_action (apply_action demoAfterRaise 1 PAction.CALL 0)
    3 PAction.RAISE 20) 1 PAction.RAISE 5

/-- Python vpip_pct (src/app.py 32-33), as an exact rational. -/
def vpip_pct (st : PlayerStats) : Rat :=
  if st.hands_played = 0 then 0 else 100 * st.vpip_hands / st.hands_played

/-- C10: vpip_hands counts qualifying preflop actions, not hands. An honored
preflop CALL adds one exactly when it pays a positive amount (RAISE likewise
adds one, see the RAISE theorem), so a seat that calls and later raises
preflop in the same hand gains two vpip_hands against a single hands_played —
witnessed by the concrete trace raise/call/re-raise/re-raise below, after
which seat 1 has vpip_hands = 2 > 1 = hands_played and vpip_pct = 200. -/
theorem vpip_counts_actions_not_hands :
    (∀ (g : GameState) (seat : Nat) (amount : Int) (p : PlayerState) (st : PlayerStats),
      find_player_by_seat g seat = some p → seat ∈ g.to_act → g.hand_running = true →
      g.street = some Street.preflop → statsFind g.stats seat = some st →
      statsFind (apply_action g seat PAction.CALL amount).stats seat
        = some { st with vpip_hands := st.vpip_hands +
            (ite (0 < (apply_action g seat PAction.CALL amount).pot - g.pot) 1 0) }) ∧
    statsFind demoC10Final.stats 1
      = some { hands_played := 1, vpip_hands := 2, pfr_hands := 1 } ∧
    100 < vpip_pct { hands_played := 1, vpip_hands := 2, pfr_hands := 1 } := by
  refine ⟨?_, by decide, by norm_num [vpip_pct]⟩
  intro g seat amount p st hfind hact hrun hpre hst
  obtain ⟨hpot, hstats, _, _⟩ :=
    apply_action_fields g seat PAction.CALL amount p hfind ⟨hact, hrun⟩
  obtain ⟨hcp, hcs⟩ := call_core_pot_stats g p seat amount
  have hdelta : (apply_action g seat PAction.CALL amount).pot - g.pot
      = min p.chips g.current_bet := by rw [hpot]; exact hcp
  rw [hdelta]
  by_cases hc : 0 < min p.chips g.current_bet
  · rw [hstats, hcs, if_pos ⟨hpre, by rw [hst]; rfl, hc⟩,
      statsFind_statsUpdate_self, hst, if_pos hc]
    rfl
  · rw [hstats, hcs, if_neg (fun hx => hc hx.2.2), hst, if_neg hc]
    simp

/-- Witness for C10's universally quantified CALL conjunct, at the reachable
three-seat state in which seat 2 has just raised to 10. -/
theorem vpip_counts_actions_not_hands_witness :
    statsFind (apply_action demoAfterRaise 1 PAction.CALL 0).stats 1
      = some { hands_played := 1, vpip_hands := 0 + (ite (0 < (apply_action demoAfterRaise 1 PAction.CALL 0).pot - demoAfterRaise.pot) 1 0), pfr_hands := 0 } := by
  have h1 : demoAfterRaise.to_act.val.count 1 = 1 := by decide
  exact vpip_counts_actions_not_hands.1 demoAfterRaise 1 0
    { seat := 1, name := "a", is_hero := false, chips := 1000,
      hole_cards := [⟨13, 2⟩, ⟨13, 1⟩], folded := false }
    { hands_played := 1, vpip_hands := 0, pfr_hands := 0 }
    (by decide)
    (Finset.mem_def.mpr (Multiset.count_pos.mp (by rw [h1]; omega)))
    rfl rfl (by decide)

/-- All hole cards on the table, across every seat. -/
def holeUnion (g : GameState) : List Card := g.players.flatMap (fun p => p.hole_cards)

theorem popLast_eq {α : Type} : ∀ (l : List α) (c : α) (r : List α),
    popLast l = some (c, r) → l = r ++ [c] := by
  intro l
  induction l with
  | nil => intro c r h; exact Option.noConfusion h
  | cons a rest ih =>
    intro c r h
    match rest, h with
    | [], h => 
      obtain ⟨h1, h2⟩ := Prod.mk.injEq .. ▸ Option.some.inj h
      rw [← h1, ← h2]
      rfl
    | b :: rest2, h =>
      unfold popLast at h
      obtain ⟨⟨c1, r1⟩, hrec, heq⟩ := Option.map_eq_some'.mp h
      obtain ⟨h1, h2⟩ := Prod.mk.injEq .. ▸ heq
      rw [← h1, ← h2]
      rw [ih c1 r1 hrec]
      rfl

theorem popN_eq : ∀ (n : Nat) (d cs d2 : List Card),
    popN n d = some (cs, d2) → d = d2 ++ cs.reverse := by
  intro n
  induction n with
  | zero =>
    intro d cs d2 h
    obtain ⟨h1, h2⟩ := Prod.mk.injEq .. ▸ Option.some.inj h
    rw [← h1, ← h2]
    simp
  | succ n ih =>
    intro d cs d2 h
    unfold popN at h
    split at h
    · exact Option.noConfusion h
    · next c d1 hpop =>
      split at h
      · exact Option.noConfusion h
      · next cs1 d2a hrec =>
        obtain ⟨h1, h2⟩ := Prod.mk.injEq .. ▸ Option.some.inj h
        rw [← h1, ← h2]
        rw [popLast_eq d c d1 hpop, ih d1 cs1 d2a hrec]
        simp

theorem dealHoles_cards (hero : List Card) : ∀ (ps : List PlayerState) (deck : List Card)
    (ps2 : List PlayerState) (d2 : List Card),
    dealHoles hero ps deck = some (ps2, d2) →
    ∃ popped : List Card, deck = d2 ++ popped ∧
      ∀ p2 ∈ ps2, ∀ c ∈ p2.hole_cards, c ∈ hero ∨ c ∈ popped := by
  intro ps
  induction ps with
  | nil =>
    intro deck ps2 d2 h
    obtain ⟨h1, h2⟩ := Prod.mk.injEq .. ▸ Option.some.inj h
    refine ⟨[], by rw [← h2]; simp, ?_⟩
    intro p2 hp2
    rw [← h1] at hp2
    simp at hp2
  | cons p ps ih =>
    intro deck ps2 d2 h
    unfold dealHoles at h
    split at h
    · next hhero =>
      obtain ⟨⟨ps1, d1⟩, hrec, heq⟩ := Option.map_eq_some'.mp h
      obtain ⟨h1, h2⟩ := Prod.mk.injEq .. ▸ heq
      obtain ⟨popped, hdeck, hmem⟩ := ih _ _ _ hrec
      refine ⟨popped, by rw [← h2]; exact hdeck, ?_⟩
      intro p2 hp2 c hc
      rw [← h1] at hp2
      rcases List.mem_cons.mp hp2 with rfl | hmem2
      · exact Or.inl hc
      · exact hmem p2 hmem2 c hc
    · split at h
      · exact Option.noConfusion h
      · next c1 d1 hpop1 =>
        split at h
        · exact Option.noConfusion h
        · next c2 d2a hpop2 =>
          obtain ⟨⟨ps1, d1b⟩, hrec, heq⟩ := Option.map_eq_some'.mp h
          obtain ⟨h1, h2⟩ := Prod.mk.injEq .. ▸ heq
          obtain ⟨popped, hdeck, hmem⟩ := ih _ _ _ hrec
          refine ⟨popped ++ [c2, c1], ?_, ?_⟩
          · rw [popLast_eq _ _ _ hpop1, popLast_eq _ _ _ hpop2, hdeck, ← h2]
            simp
          · intro p2 hp2 c hc
            rw [← h1] at hp2
            rcases List.mem_cons.mp hp2 with rfl | hmem2
            · simp only [List.mem_cons, List.not_mem_nil] at hc
              rcases hc with rfl | rfl | hfalse
              · exact Or.inr (by simp)
              · exact Or.inr (by simp)
              · exact absurd hfalse (by simp)
            · rcases hmem p2 hmem2 c hc with h3 | h3
              · exact Or.inl h3
              · exact Or.inr (by simp [h3])

/-- The inductive card invariant: deck, hole cards and the precomputed full
board are pairwise disjoint, and the visible board is a subset of the full
board. -/
def CardsInv (g : GameState) : Prop :=
  g.deck.Disjoint (holeUnion g) ∧ g.deck.Disjoint g.full_board ∧
  (holeUnion g).Disjoint g.full_board ∧ ∀ c ∈ g.board, c ∈ g.full_board

theorem deck52_nodup : deck52.Nodup := by decide

theorem deal_cards_inv (shuffled hero_cards board_cards : List Card) (g g2 : GameState)
    (hsh : shuffled.Perm deck52) (hnd : (hero_cards ++ board_cards).Nodup)
    (h : deal_new_hand shuffled hero_cards board_cards g = some g2) : CardsInv g2 := by
  have hshnd : shuffled.Nodup := hsh.nodup_iff.mpr deck52_nodup
  simp only [deal_new_hand, Option.bind_eq_some] at h
  obtain ⟨fb, hfb, pd, hpd, h⟩ := h
  have hg2 := Option.some.inj h
  subst hg2
  have hd0nd : (shuffled.filter
      (fun c => decide (c ∉ hero_cards ++ board_cards))).Nodup := hshnd.filter _
  have hd0used : ∀ c ∈ shuffled.filter (fun c => decide (c ∉ hero_cards ++ board_cards)),
      c ∉ hero_cards ++ board_cards := by
    intro c hc
    have := (List.mem_filter.mp hc).2
    simpa using this
  obtain ⟨popped, hA, hmem⟩ := dealHoles_cards hero_cards _ _ _ _ hpd
  have hholes : ∀ c, c ∈ pd.1.flatMap (fun p => p.hole_cards)
      → c ∈ hero_cards ∨ c ∈ popped := by
    intro c hc
    obtain ⟨p2, hp2, hcp⟩ := List.mem_flatMap.mp hc
    exact hmem p2 hp2 c hcp
  split at hfb
  · next hcase =>
    have hfbe : (board_cards,
        shuffled.filter (fun c => decide (c ∉ hero_cards ++ board_cards))) = fb :=
      Option.some.inj hfb
    have hd2 : shuffled.filter (fun c => decide (c ∉ hero_cards ++ board_cards))
        = pd.2 ++ popped := (congrArg Prod.snd hfbe).trans hA
    have hnd2 : (pd.2 ++ popped).Nodup := hd2 ▸ hd0nd
    obtain ⟨_, _, hdisj⟩ := List.nodup_append.mp hnd2
    have hsubd : ∀ c, (c ∈ pd.2 ∨ c ∈ popped) →
        c ∉ hero_cards ++ board_cards := by
      intro c hc
      apply hd0used
      rw [hd2]
      rcases hc with hc | hc
      · exact List.mem_append_left _ hc
      · exact List.mem_append_right _ hc
    have hfb1 : fb.1 = board_cards := (congrArg Prod.fst hfbe).symm
    refine ⟨?_, ?_, ?_, ?_⟩
    · intro c hc1 hc2
      rcases hholes c hc2 with h3 | h3
      · exact hsubd c (Or.inl hc1) (List.mem_append_left _ h3)
      · exact hdisj hc1 h3
    · intro c hc1 hc2
      rw [hfb1] at hc2
      exact hsubd c (Or.inl hc1) (List.mem_append_right _ hc2)
    · intro c hc1 hc2
      rw [hfb1] at hc2
      rcases hholes c hc1 with h3 | h3
      · obtain ⟨_, _, hdisj2⟩ := List.nodup_append.mp hnd
        exact hdisj2 h3 hc2
      · exact hsubd c (Or.inr h3) (List.mem_append_right _ hc2)
    · intro c hc
      exact absurd hc (by simp)
  · next hcase =>
    have hd0 : shuffled.filter (fun c => decide (c ∉ hero_cards ++ board_cards))
        = (pd.2 ++ popped) ++ fb.1.reverse := by
      rw [popN_eq 5 _ _ _ hfb, hA]
    have hndall : ((pd.2 ++ popped) ++ fb.1.reverse).Nodup := hd0 ▸ hd0nd
    obtain ⟨hndl, _, hdisj1⟩ := List.nodup_append.mp hndall
    obtain ⟨_, _, hdisj0⟩ := List.nodup_append.mp hndl
    have hsubd : ∀ c, (c ∈ pd.2 ∨ c ∈ popped ∨ c ∈ fb.1) →
        c ∉ hero_cards ++ board_cards := by
      intro c hc
      apply hd0used
      rw [hd0]
      rcases hc with hc | hc | hc
      · exact List.mem_append_left _ (List.mem_append_left _ hc)
      · exact List.mem_append_left _ (List.mem_append_right _ hc)
      · exact List.mem_append_right _ (List.mem_reverse.mpr hc)
    refine ⟨?_, ?_, ?_, ?_⟩
    · intro c hc1 hc2
      rcases hholes c hc2 with h3 | h3
      · exact hsubd c (Or.inl hc1) (List.mem_append_left _ h3)
      · exact hdisj0 hc1 h3
    · intro c hc1 hc2
      exact hdisj1 (List.mem_append_left _ hc1) (List.mem_reverse.mpr hc2)
    · intro c hc1 hc2
      rcases hholes c hc1 with h3 | h3
      · exact hsubd c (Or.inr (Or.inr hc2)) (List.mem_append_left _ h3)
      · exact hdisj1 (List.mem_append_right _ h3) (List.mem_reverse.mpr hc2)
    · intro c hc
      exact absurd hc (by simp)

theorem next_street_cards (g : GameState) :
    (next_street_or_showdown g).deck = g.deck ∧
    (next_street_or_showdown g).full_board = g.full_board ∧
    ((next_street_or_showdown g).board = g.board ∨
      ∃ k, (next_street_or_showdown g).board = g.full_board.take k) := by
  unfold next_street_or_showdown
  split
  · split
    · exact ⟨rfl, rfl, Or.inr ⟨3, rfl⟩⟩
    · exact ⟨rfl, rfl, Or.inr ⟨4, rfl⟩⟩
    · exact ⟨rfl, rfl, Or.inr ⟨5, rfl⟩⟩
    · exact ⟨rfl, rfl, Or.inl rfl⟩
  · exact ⟨rfl, rfl, Or.inl rfl⟩

theorem updatePlayer_flatMap (ps : List PlayerState) (seat : Nat)
    (f : PlayerState → PlayerState) (hf : ∀ p, (f p).hole_cards = p.hole_cards) :
    (updatePlayer ps seat f).flatMap (fun p => p.hole_cards)
      = ps.flatMap (fun p => p.hole_cards) := by
  induction ps with
  | nil => rfl
  | cons x xs ih =>
    unfold updatePlayer
    split
    · simp only [List.flatMap_cons, hf]
    · simp only [List.flatMap_cons, ih]

theorem applyActionCore_holeUnion (g : GameState) (p : PlayerState) (seat : Nat)
    (a : PAction) (amount : Int) :
    (applyActionCore g p seat a amount).players.flatMap (fun q => q.hole_cards)
      = g.players.flatMap (fun q => q.hole_cards) := by
  cases a
  case FOLD => exact updatePlayer_flatMap _ _ _ (fun q => rfl)
  case CHECK => rfl
  case CALL =>
    rw [show (applyActionCore g p seat PAction.CALL amount).players
        = updatePlayer g.players seat
          (fun p2 => { p2 with chips := p2.chips - min p.chips g.current_bet })
      from callStats_players _ _ _ _]
    exact updatePlayer_flatMap _ _ _ (fun q => rfl)
  case RAISE =>
    rw [show (applyActionCore g p seat PAction.RAISE amount).players
        = (raisePay g p.chips seat (min (min p.chips g.current_bet + amount)
            (p.chips + min p.chips g.current_bet))).players
      from raiseStats_players _ _ _ _]
    unfold raisePay
    split
    · exact updatePlayer_flatMap _ _ _ (fun q => rfl)
    · rfl

theorem apply_action_cards (g : GameState) (seat : Nat) (a : PAction) (amount : Int) :
    (apply_action g seat a amount).deck = g.deck ∧
    (apply_action g seat a amount).full_board = g.full_board ∧
    (apply_action g seat a amount).board = g.board ∧
    (apply_action g seat a amount).players.flatMap (fun q => q.hole_cards)
      = g.players.flatMap (fun q => q.hole_cards) := by
  cases hfind : find_player_by_seat g seat with
  | none => simp [apply_action, hfind]
  | some p =>
    by_cases hg : seat ∈ g.to_act ∧ g.hand_running = true
    · simp only [apply_action, hfind, if_pos hg]
      obtain ⟨hcp, _, _, _, _, _, hcd, hcb, hcf, _⟩ :=
        check_hand_end_preserves (applyActionCore g p seat a amount)
      obtain ⟨_, _, _, hd, hb, hf⟩ := applyActionCore_preserved g p seat a amount
      have hu := applyActionCore_holeUnion g p seat a amount
      split
      · exact ⟨hcd.trans hd, hcf.trans hf, hcb.trans hb, by rw [hcp]; exact hu⟩
      · exact ⟨hcd.trans hd, hcf.trans hf, hcb.trans hb, by rw [hcp]; exact hu⟩
    · simp [apply_action, hfind, if_neg hg]

/-- Hand states reachable through dealing, street reveals, actions and the
turn-advancement housekeeping of `ask_for_action` — the scope of the card
invariant; the deal's pre-specified hero/board cards must not overlap. -/
inductive ReachCards : GameState → Prop
  | deal (g g2 : GameState) (shuffled hero_cards board_cards : List Card)
      (hsh : shuffled.Perm deck52) (hnd : (hero_cards ++ board_cards).Nodup)
      (h : deal_new_hand shuffled hero_cards board_cards g = some g2) : ReachCards g2
  | street (g : GameState) : ReachCards g → ReachCards (next_street_or_showdown g)
  | action (g : GameState) (seat : Nat) (a : PAction) (amount : Int) :
      ReachCards g → ReachCards (apply_action g seat a amount)
  | housekeeping (g : GameState) (t : Finset Nat) (o : Option Nat) :
      ReachCards g → ReachCards { g with to_act := t, current_player_seat := o }

theorem reachCards_inv (g : GameState) (h : ReachCards g) : CardsInv g := by
  induction h with
  | deal g0 g2 sh hc bc hsh hnd hdeal => exact deal_cards_inv sh hc bc g0 g2 hsh hnd hdeal
  | street g0 _ ih =>
    obtain ⟨i1, i2, i3, i4⟩ := ih
    obtain ⟨hd, hf, hb⟩ := next_street_cards g0
    have hu : holeUnion (next_street_or_showdown g0) = holeUnion g0 := by
      unfold holeUnion
      rw [next_street_players]
    refine ⟨?_, ?_, ?_, ?_⟩
    · rw [hd, hu]; exact i1
    · rw [hd, hf]; exact i2
    · rw [hu, hf]; exact i3
    · intro c hc
      rw [hf]
      rcases hb with hb | ⟨k, hb⟩
      · rw [hb] at hc; exact i4 c hc
      · rw [hb] at hc; exact List.mem_of_mem_take hc
  | action g0 seat a amount _ ih =>
    obtain ⟨i1, i2, i3, i4⟩ := ih
    obtain ⟨hd, hf, hb, hu⟩ := apply_action_cards g0 seat a amount
    refine ⟨?_, ?_, ?_, ?_⟩
    · show (apply_action g0 seat a amount).deck.Disjoint
        ((apply_action g0 seat a amount).players.flatMap (fun q => q.hole_cards))
      rw [hd, hu]; exact i1
    · rw [hd, hf]; exact i2
    · show ((apply_action g0 seat a amount).players.flatMap
        (fun q => q.hole_cards)).Disjoint (apply_action g0 seat a amount).full_board
      rw [hu, hf]; exact i3
    · intro c hc
      rw [hb] at hc
      rw [hf]
      exact i4 c hc
  | housekeeping g0 t o _ ih => exact ih

def demoOneDealt : GameState :=
  (deal_new_hand deck52 [] [] (on_join GameState.initState "a")).getD GameState.initState

def demoManualBoard : GameState :=
  manual_set_board demoOneDealt [⟨2,0⟩, ⟨3,0⟩, ⟨4,0⟩]

/-- Counterexample to C5 as stated: the manual board override
(`manual_set_board`, src/app.py 370-398) replaces the visible board without
removing the new cards from the deck, so after the override the deuce of
spades sits in the board and in the deck at the same time, inside a running
hand. -/
theorem manual_board_override_breaks_disjointness :
    demoManualBoard.hand_running = true ∧
    (⟨2,0⟩ : Card) ∈ demoManualBoard.board ∧
    (⟨2,0⟩ : Card) ∈ demoManualBoard.deck := by
  refine ⟨rfl, ?_, ?_⟩ <;> decide

/-- C5 (amended): in every state reachable during a running hand through
dealing, street reveals, actions and turn housekeeping — excluding the manual
board override — the deck, the union of all seats' hole cards, and the visible
board are pairwise disjoint. -/
theorem cards_pairwise_disjoint_without_manual_override (g : GameState)
    (h : ReachCards g) :
    g.deck.Disjoint (holeUnion g) ∧ g.deck.Disjoint g.board ∧
    (holeUnion g).Disjoint g.board := by
  obtain ⟨i1, i2, i3, i4⟩ := reachCards_inv g h
  exact ⟨i1, fun c hc hb => i2 hc (i4 c hb), fun c hc hb => i3 hc (i4 c hb)⟩

/-- Witness: the two-player freshly dealt demo state is `ReachCards`-reachable
and satisfies the pairwise disjointness. -/
theorem cards_pairwise_disjoint_without_manual_override_witness :
    demoTwoDealt.deck.Disjoint (holeUnion demoTwoDealt) ∧
    demoTwoDealt.deck.Disjoint demoTwoDealt.board ∧
    (holeUnion demoTwoDealt).Disjoint demoTwoDealt.board :=
  cards_pairwise_disjoint_without_manual_override demoTwoDealt
    (ReachCards.deal demoTwoSeats demoTwoDealt deck52 [] []
      (List.Perm.refl deck52) (by decide) rfl)


/-- Same members: both inclusions between two rank lists. -/
def sameMem (l1 l2 : List Nat) : Prop := (∀ r ∈ l1, r ∈ l2) ∧ (∀ r ∈ l2, r ∈ l1)

instance (l1 l2 : List Nat) : Decidable (sameMem l1 l2) := by
  unfold sameMem; exact inferInstance

/-- Reference: all five cards share one suit. -/
def refFlush (cs : List Card) : Prop :=
  ∀ c1 ∈ cs, ∀ c2 ∈ cs, Card.suit c1 = Card.suit c2

instance (cs : List Card) : Decidable (refFlush cs) := by
  unfold refFlush; exact inferInstance

/-- Reference: the ranks are five consecutive values, or the wheel A-2-3-4-5. -/
def refStraight (cs : List Card) : Prop :=
  (∃ lo ∈ cs.map Card.rank,
    sameMem (cs.map Card.rank) [lo, lo + 1, lo + 2, lo + 3, lo + 4]) ∨
  sameMem (cs.map Card.rank) [14, 2, 3, 4, 5]

instance (cs : List Card) : Decidable (refStraight cs) := by
  unfold refStraight; exact inferInstance

/-- Reference: four cards of one rank. -/
def refQuads (cs : List Card) : Prop :=
  ∃ r ∈ cs.map Card.rank, (cs.map Card.rank).count r = 4

instance (cs : List Card) : Decidable (refQuads cs) := by
  unfold refQuads; exact inferInstance

/-- Reference: three of one rank and two of another. -/
def refFullHouse (cs : List Card) : Prop :=
  ∃ r ∈ cs.map Card.rank, ∃ s ∈ cs.map Card.rank,
    r ≠ s ∧ (cs.map Card.rank).count r = 3 ∧ (cs.map Card.rank).count s = 2

instance (cs : List Card) : Decidable (refFullHouse cs) := by
  unfold refFullHouse; exact inferInstance

/-- Reference: three cards of one rank. -/
def refTrips (cs : List Card) : Prop :=
  ∃ r ∈ cs.map Card.rank, (cs.map Card.rank).count r = 3

instance (cs : List Card) : Decidable (refTrips cs) := by
  unfold refTrips; exact inferInstance

/-- Reference: two cards each of two distinct ranks. -/
def refTwoPair (cs : List Card) : Prop :=
  ∃ r ∈ cs.map Card.rank, ∃ s ∈ cs.map Card.rank,
    r ≠ s ∧ (cs.map Card.rank).count r = 2 ∧ (cs.map Card.rank).count s = 2

instance (cs : List Card) : Decidable (refTwoPair cs) := by
  unfold refTwoPair; exact inferInstance

/-- Reference: two cards of one rank. -/
def refPair (cs : List Card) : Prop :=
  ∃ r ∈ cs.map Card.rank, (cs.map Card.rank).count r = 2

instance (cs : List Card) : Decidable (refPair cs) := by
  unfold refPair; exact inferInstance

/-- The reference poker classifier, written from the specification's category
ladder: straight-flush(8) > quads(7) > full-house(6) > flush(5) > straight(4)
> trips(3) > two-pair(2) > pair(1) > high-card(0), straights including the
wheel A-2-3-4-5. -/
def referenceCategory (cs : List Card) : Nat :=
  if refFlush cs ∧ refStraight cs then 8
  else if refQuads cs then 7
  else if refFullHouse cs then 6
  else if refFlush cs then 5
  else if refStraight cs then 4
  else if refTrips cs then 3
  else if refTwoPair cs then 2
  else if refPair cs then 1
  else 0

theorem evaluate5_fst (cs : List Card) :
    (evaluate_5 cs).1 =
      (if (cs.map Card.suit).dedup.length = 1 ∧
          (straightScan (List.insertionSort (fun a b => a ≤ b) (cs.map Card.rank).dedup)
            (cs.map Card.rank)).1 = true then 8
       else if (((List.insertionSort pairGE ((cs.map Card.rank).dedup.map
            (fun r => (r, (cs.map Card.rank).count r)))).getD 0 (0, 0)).2) = 4 then 7
       else if (((List.insertionSort pairGE ((cs.map Card.rank).dedup.map
            (fun r => (r, (cs.map Card.rank).count r)))).getD 0 (0, 0)).2) = 3 ∧
          1 < (List.insertionSort pairGE ((cs.map Card.rank).dedup.map
            (fun r => (r, (cs.map Card.rank).count r)))).length ∧
          2 ≤ (((List.insertionSort pairGE ((cs.map Card.rank).dedup.map
            (fun r => (r, (cs.map Card.rank).count r)))).getD 1 (0, 0)).2) then 6
       else if (cs.map Card.suit).dedup.length = 1 then 5
       else if (straightScan (List.insertionSort (fun a b => a ≤ b) (cs.map Card.rank).dedup)
            (cs.map Card.rank)).1 = true then 4
       else if (((List.insertionSort pairGE ((cs.map Card.rank).dedup.map
            (fun r => (r, (cs.map Card.rank).count r)))).getD 0 (0, 0)).2) = 3 then 3
       else if (((List.insertionSort pairGE ((cs.map Card.rank).dedup.map
            (fun r => (r, (cs.map Card.rank).count r)))).getD 0 (0, 0)).2) = 2 ∧
          1 < (List.insertionSort pairGE ((cs.map Card.rank).dedup.map
            (fun r => (r, (cs.map Card.rank).count r)))).length ∧
          (((List.insertionSort pairGE ((cs.map Card.rank).dedup.map
            (fun r => (r, (cs.map Card.rank).count r)))).getD 1 (0, 0)).2) = 2 then 2
       else if (((List.insertionSort pairGE ((cs.map Card.rank).dedup.map
            (fun r => (r, (cs.map Card.rank).count r)))).getD 0 (0, 0)).2) = 2 then 1
       else 0) := by
  unfold evaluate_5
  dsimp only
  repeat' split
  all_goals rfl

/-- The `(rank, multiplicity)` association of a rank list, before sorting. -/
def countPairs (l : List Nat) : List (Nat × Nat) :=
  l.dedup.map (fun r => (r, l.count r))

/-- `by_count` of `evaluate_5` as a standalone function of the rank list. -/
def byCount (l : List Nat) : List (Nat × Nat) :=
  List.insertionSort pairGE (countPairs l)

theorem byCount_perm (l : List Nat) : (byCount l).Perm (countPairs l) :=
  List.perm_insertionSort pairGE (countPairs l)

theorem byCount_sorted (l : List Nat) : (byCount l).Sorted pairGE :=
  List.sorted_insertionSort pairGE (countPairs l)

theorem mem_byCount (l : List Nat) (p : Nat × Nat) :
    p ∈ byCount l ↔ p.1 ∈ l ∧ p.2 = l.count p.1 := by
  rw [(byCount_perm l).mem_iff]
  unfold countPairs
  rw [List.mem_map]
  constructor
  · rintro ⟨r, hr, rfl⟩
    exact ⟨List.mem_dedup.mp hr, rfl⟩
  · rintro ⟨h1, h2⟩
    exact ⟨p.1, List.mem_dedup.mpr h1, by rw [← h2]⟩

theorem byCount_snd_sum (l : List Nat) :
    ((byCount l).map Prod.snd).sum = l.length := by
  have h1 : ((byCount l).map Prod.snd).Perm ((countPairs l).map Prod.snd) :=
    (byCount_perm l).map Prod.snd
  rw [h1.sum_eq]
  unfold countPairs
  rw [List.map_map]
  exact List.sum_map_count_dedup_eq_length l

theorem byCount_fst_nodup (l : List Nat) : ((byCount l).map Prod.fst).Nodup := by
  have h1 : ((byCount l).map Prod.fst).Perm ((countPairs l).map Prod.fst) :=
    (byCount_perm l).map Prod.fst
  rw [h1.nodup_iff]
  unfold countPairs
  rw [List.map_map]
  exact (List.nodup_dedup l).map (fun a b h => h)

theorem byCount_snd_sorted (l : List Nat) :
    ((byCount l).map Prod.snd).Sorted (fun a b => b ≤ a) := by
  refine List.Pairwise.map Prod.snd ?_ (byCount_sorted l)
  intro a b hab
  rcases hab with h | ⟨h, _⟩
  · omega
  · omega

theorem byCount_length (l : List Nat) : (byCount l).length = l.dedup.length := by
  rw [(byCount_perm l).length_eq]
  unfold countPairs
  rw [List.length_map]

theorem count_mem_byCount_snd (l : List Nat) (r : Nat) (h : r ∈ l) :
    l.count r ∈ (byCount l).map Prod.snd :=
  List.mem_map.mpr ⟨(r, l.count r), (mem_byCount l (r, l.count r)).mpr ⟨h, rfl⟩, rfl⟩

theorem byCount_snd_pos (l : List Nat) :
    ∀ k ∈ (byCount l).map Prod.snd, 1 ≤ k := by
  intro k hk
  obtain ⟨p, hp, rfl⟩ := List.mem_map.mp hk
  obtain ⟨h1, h2⟩ := (mem_byCount l p).mp hp
  rw [h2]
  exact List.count_pos_iff.mpr h1

theorem straightScan_short (uniq ranks : List Nat) (h : uniq.length < 5) :
    straightScan uniq ranks = (false, 0) := by
  unfold straightScan
  rw [if_neg (by omega)]

theorem exists_five (l : List Nat) (h : l.length = 5) :
    ∃ a b c d e, l = [a, b, c, d, e] := by
  rcases l with _ | ⟨a, _ | ⟨b, _ | ⟨c, _ | ⟨d, _ | ⟨e, rest⟩⟩⟩⟩⟩
  · simp at h
  · simp at h
  · simp at h
  · simp at h
  · simp at h
  · have : rest = [] := by
      have := h
      simp only [List.length_cons] at this
      exact List.length_eq_zero.mp (by omega)
    exact ⟨a, b, c, d, e, by rw [this]⟩

theorem shape5 (s : List Nat) (hs : s.Sorted (fun a b => b ≤ a))
    (hpos : ∀ x ∈ s, 1 ≤ x) (hle : ∀ x ∈ s, x ≤ 4) (hsum : s.sum = 5) :
    s = [4, 1] ∨ s = [3, 2] ∨ s = [3, 1, 1] ∨ s = [2, 2, 1] ∨
    s = [2, 1, 1, 1] ∨ s = [1, 1, 1, 1, 1] := by
  rcases s with _ | ⟨a, _ | ⟨b, _ | ⟨c, _ | ⟨d, _ | ⟨e, rest⟩⟩⟩⟩⟩
  · simp at hsum
  · simp only [List.sum_cons, List.sum_nil] at hsum
    have := hle a (by simp)
    omega
  · simp only [List.sorted_cons] at hs
    simp only [List.sum_cons, List.sum_nil] at hsum
    have h1 := hs.1 b (by simp)
    have h2 := hpos b (by simp)
    have h3 := hle a (by simp)
    have h4 : (a = 4 ∧ b = 1) ∨ (a = 3 ∧ b = 2) := by omega
    rcases h4 with ⟨rfl, rfl⟩ | ⟨rfl, rfl⟩
    · exact Or.inl rfl
    · exact Or.inr (Or.inl rfl)
  · simp only [List.sorted_cons] at hs
    simp only [List.sum_cons, List.sum_nil] at hsum
    have h1 := hs.1 b (by simp)
    have h2 := hs.2.1 c (by simp)
    have h3 := hpos c (by simp)
    have h4 : (a = 3 ∧ b = 1 ∧ c = 1) ∨ (a = 2 ∧ b = 2 ∧ c = 1) := by omega
    rcases h4 with ⟨rfl, rfl, rfl⟩ | ⟨rfl, rfl, rfl⟩
    · exact Or.inr (Or.inr (Or.inl rfl))
    · exact Or.inr (Or.inr (Or.inr (Or.inl rfl)))
  · simp only [List.sorted_cons] at hs
    simp only [List.sum_cons, List.sum_nil] at hsum
    have h1 := hs.1 b (by simp)
    have h2 := hs.2.1 c (by simp)
    have h3 := hs.2.2.1 d (by simp)
    have h4 := hpos d (by simp)
    have h5 : a = 2 ∧ b = 1 ∧ c = 1 ∧ d = 1 := by omega
    rcases h5 with ⟨rfl, rfl, rfl, rfl⟩
    exact Or.inr (Or.inr (Or.inr (Or.inr (Or.inl rfl))))
  · rcases rest with _ | ⟨f, rest2⟩
    · simp only [List.sorted_cons] at hs
      simp only [List.sum_cons, List.sum_nil] at hsum
      have h1 := hs.1 b (by simp)
      have h2 := hs.2.1 c (by simp)
      have h3 := hs.2.2.1 d (by simp)
      have h4 := hs.2.2.2.1 e (by simp)
      have h5 := hpos e (by simp)
      have h6 : a = 1 ∧ b = 1 ∧ c = 1 ∧ d = 1 ∧ e = 1 := by omega
      rcases h6 with ⟨rfl, rfl, rfl, rfl, rfl⟩
      exact Or.inr (Or.inr (Or.inr (Or.inr (Or.inr rfl))))
    · exfalso
      have ha := hpos a (by simp)
      have hb := hpos b (by simp)
      have hc := hpos c (by simp)
      have hd := hpos d (by simp)
      have he := hpos e (by simp)
      have hf := hpos f (by simp)
      simp only [List.sum_cons] at hsum
      omega

theorem count_map_rank (cs : List Card) (r : Nat) :
    (cs.map Card.rank).count r = (cs.filter (fun c => c.rank = r)).length := by
  induction cs with
  | nil => rfl
  | cons c cs ih =>
    by_cases h : c.rank = r
    · simp only [List.map_cons, List.count_cons, List.filter_cons, h, if_pos, ih]
      simp
    · simp only [List.map_cons, List.count_cons, List.filter_cons, ih]
      simp [h]

theorem deck52_suit_lt : ∀ c ∈ deck52, c.suit < 4 := by
  intro c hc
  have h : deck52.all (fun c => decide (c.suit < 4)) = true := by decide
  exact of_decide_eq_true (List.all_eq_true.mp h c hc)

theorem count_rank_le_four (cs : List Card) (hnd : cs.Nodup)
    (hmem : ∀ c ∈ cs, c ∈ deck52) (r : Nat) :
    (cs.map Card.rank).count r ≤ 4 := by
  rw [count_map_rank]
  have hfsub : ∀ c ∈ cs.filter (fun c => c.rank = r), c ∈ cs :=
    fun c hc => List.mem_of_mem_filter hc
  have hnds : ((cs.filter (fun c => c.rank = r)).map Card.suit).Nodup := by
    refine List.Nodup.map_on ?_ (hnd.filter _)
    intro x hx y hy hxy
    have hxr : x.rank = r := by
      have := (List.mem_filter.mp hx).2
      exact of_decide_eq_true this
    have hyr : y.rank = r := by
      have := (List.mem_filter.mp hy).2
      exact of_decide_eq_true this
    cases x
    cases y
    simp only [Card.mk.injEq]
    simp only at hxr hyr hxy
    exact ⟨hxr.trans hyr.symm, hxy⟩
  have hsub : ((cs.filter (fun c => c.rank = r)).map Card.suit).Subperm [0, 1, 2, 3] := by
    refine List.Nodup.subperm hnds ?_
    intro s hs
    obtain ⟨c, hc, rfl⟩ := List.mem_map.mp hs
    have h4 := deck52_suit_lt c (hmem c (hfsub c hc))
    simp only [List.mem_cons]
    omega
  have hlen := hsub.length_le
  simp only [List.length_map] at hlen
  simpa using hlen

theorem suits_dedup_one_iff (cs : List Card) (h : cs ≠ []) :
    (cs.map Card.suit).dedup.length = 1 ↔ refFlush cs := by
  constructor
  · intro h1
    obtain ⟨a, ha⟩ := List.length_eq_one.mp h1
    intro c1 hc1 c2 hc2
    have m1 : c1.suit ∈ (cs.map Card.suit).dedup :=
      List.mem_dedup.mpr (List.mem_map.mpr ⟨c1, hc1, rfl⟩)
    have m2 : c2.suit ∈ (cs.map Card.suit).dedup :=
      List.mem_dedup.mpr (List.mem_map.mpr ⟨c2, hc2, rfl⟩)
    rw [ha] at m1 m2
    rw [List.mem_singleton.mp m1, List.mem_singleton.mp m2]
  · intro hf
    obtain ⟨c0, cs0, rfl⟩ := List.exists_cons_of_ne_nil h
    have hperm : ((c0 :: cs0).map Card.suit).dedup.Perm [c0.suit] := by
      refine (List.perm_ext_iff_of_nodup (List.nodup_dedup _) (by simp)).mpr ?_
      intro a
      rw [List.mem_dedup, List.mem_singleton]
      constructor
      · intro ha
        obtain ⟨c, hc, rfl⟩ := List.mem_map.mp ha
        exact hf c hc c0 (by simp)
      · intro ha
        exact ha ▸ List.mem_map.mpr ⟨c0, by simp, rfl⟩
    simpa using hperm.length_eq

theorem refFlush_rank_nodup (cs : List Card) (hnd : cs.Nodup) (hf : refFlush cs) :
    (cs.map Card.rank).Nodup := by
  refine List.Nodup.map_on ?_ hnd
  intro x hx y hy hxy
  have hs := hf x hx y hy
  cases x
  cases y
  simp only at hxy hs
  simp only [Card.mk.injEq]
  exact ⟨hxy, hs⟩

theorem refStraight_dedup_length (cs : List Card) (h : refStraight cs) :
    (cs.map Card.rank).dedup.length = 5 := by
  rcases h with ⟨lo, _, hsm⟩ | hsm
  · have hw : ([lo, lo + 1, lo + 2, lo + 3, lo + 4] : List Nat).Nodup := by
      simp only [List.nodup_cons, List.mem_cons, List.mem_singleton, List.not_mem_nil,
        List.nodup_nil, not_or, or_false, and_true]
      norm_num
    have hperm : ((cs.map Card.rank).dedup).Perm [lo, lo + 1, lo + 2, lo + 3, lo + 4] := by
      refine (List.perm_ext_iff_of_nodup (List.nodup_dedup _) hw).mpr ?_
      intro a
      rw [List.mem_dedup]
      exact ⟨fun ha => hsm.1 a ha, fun ha => hsm.2 a ha⟩
    simpa using hperm.length_eq
  · have hw : ([14, 2, 3, 4, 5] : List Nat).Nodup := by decide
    have hperm : ((cs.map Card.rank).dedup).Perm [14, 2, 3, 4, 5] := by
      refine (List.perm_ext_iff_of_nodup (List.nodup_dedup _) hw).mpr ?_
      intro a
      rw [List.mem_dedup]
      exact ⟨fun ha => hsm.1 a ha, fun ha => hsm.2 a ha⟩
    simpa using hperm.length_eq

theorem perm_of_nodup_subset_length (l1 l2 : List Nat) (h1 : l1.Nodup)
    (hsub : ∀ a ∈ l1, a ∈ l2) (hl : l2.length = l1.length) : l2.Perm l1 := by
  obtain ⟨l3, hp3, hs3⟩ := List.Nodup.subperm h1 hsub
  have h3 : l3 = l2 := hs3.eq_of_length (by rw [hp3.length_eq, hl])
  rw [← h3]
  exact hp3

theorem straight_iff (cs : List Card) (hlen : cs.length = 5)
    (hnd : (cs.map Card.rank).Nodup) :
    (straightScan (List.insertionSort (fun a b => a ≤ b) (cs.map Card.rank).dedup)
      (cs.map Card.rank)).1 = true ↔ refStraight cs := by
  have hR : (cs.map Card.rank).length = 5 := by simp [hlen]
  rw [List.Nodup.dedup hnd]
  have hperm : (List.insertionSort (fun a b => a ≤ b) (cs.map Card.rank)).Perm
      (cs.map Card.rank) := List.perm_insertionSort _ _
  have hsorted : (List.insertionSort (fun a b => a ≤ b) (cs.map Card.rank)).Sorted
      (fun a b => a ≤ b) := List.sorted_insertionSort _ _
  have hUnd : (List.insertionSort (fun a b => a ≤ b) (cs.map Card.rank)).Nodup :=
    hperm.nodup_iff.mpr hnd
  have hUlen : (List.insertionSort (fun a b => a ≤ b) (cs.map Card.rank)).length = 5 :=
    hperm.length_eq.trans hR
  obtain ⟨u0, u1, u2, u3, u4, hU⟩ :=
    exists_five (List.insertionSort (fun a b => a ≤ b) (cs.map Card.rank)) hUlen
  rw [hU] at hperm hsorted hUnd ⊢
  have hmemU : ∀ a, a ∈ cs.map Card.rank ↔ a ∈ [u0, u1, u2, u3, u4] :=
    fun a => (hperm.mem_iff).symm
  simp only [List.sorted_cons, List.mem_cons, List.not_mem_nil, or_false,
    forall_eq_or_imp, forall_eq, List.sorted_nil, and_true, false_implies,
    forall_const] at hsorted
  simp only [List.nodup_cons, List.mem_cons, List.not_mem_nil, or_false, not_or,
    List.nodup_nil, and_true] at hUnd
  have hscan : straightScan [u0, u1, u2, u3, u4] (cs.map Card.rank) =
      if [14, 2, 3, 4, 5].all (fun v => decide (v ∈ cs.map Card.rank)) then (true, 5)
      else if u4 - u0 = 4 then (true, u4) else (false, 0) := rfl
  rw [hscan]
  by_cases hwb : [14, 2, 3, 4, 5].all (fun v => decide (v ∈ cs.map Card.rank)) = true
  · rw [if_pos hwb]
    simp only [true_iff]
    right
    have hsub : ∀ a ∈ ([14, 2, 3, 4, 5] : List Nat), a ∈ cs.map Card.rank := by
      intro a ha
      exact of_decide_eq_true (List.all_eq_true.mp hwb a ha)
    have hp := perm_of_nodup_subset_length [14, 2, 3, 4, 5] (cs.map Card.rank)
      (by decide) hsub (by simp [hR])
    exact ⟨fun r hr => hp.mem_iff.mp hr, fun r hr => hp.symm.mem_iff.mp hr⟩
  · rw [if_neg hwb]
    by_cases hwin : u4 - u0 = 4
    · rw [if_pos hwin]
      simp only [true_iff]
      left
      have e1 : u1 = u0 + 1 := by omega
      have e2 : u2 = u0 + 2 := by omega
      have e3 : u3 = u0 + 3 := by omega
      have e4 : u4 = u0 + 4 := by omega
      refine ⟨u0, ?_, ?_, ?_⟩
      · exact (hmemU u0).mpr (by simp)
      · intro r hr
        have := (hmemU r).mp hr
        rw [e1, e2, e3, e4] at this
        exact this
      · intro r hr
        rw [← e1, ← e2, ← e3, ← e4] at hr
        exact (hmemU r).mpr hr
    · rw [if_neg hwin]
      constructor
      · intro h
        exact absurd h (by decide)
      · intro h
        exfalso
        rcases h with ⟨lo, hlo, hsm⟩ | hsm
        · have hwnd : ([lo, lo + 1, lo + 2, lo + 3, lo + 4] : List Nat).Nodup := by
            simp only [List.nodup_cons, List.mem_cons, List.mem_singleton,
              List.not_mem_nil, List.nodup_nil, not_or, or_false, and_true]
            norm_num
          have hwsort : ([lo, lo + 1, lo + 2, lo + 3, lo + 4] : List Nat).Sorted
              (fun a b => a ≤ b) := by
            simp [List.sorted_cons]
          have hup : ([u0, u1, u2, u3, u4] : List Nat).Perm
              [lo, lo + 1, lo + 2, lo + 3, lo + 4] := by
            refine (List.perm_ext_iff_of_nodup ?_ hwnd).mpr ?_
            · simp only [List.nodup_cons, List.mem_cons, List.not_mem_nil, or_false,
                not_or, List.nodup_nil, and_true]
              exact hUnd
            · intro a
              rw [← hmemU a]
              exact ⟨fun ha => hsm.1 a ha, fun ha => hsm.2 a ha⟩
          have heq := List.eq_of_perm_of_sorted hup
            (by
              simp only [List.sorted_cons, List.mem_cons, List.not_mem_nil, or_false,
                forall_eq_or_imp, forall_eq, List.sorted_nil, and_true, false_implies,
                forall_const]
              exact hsorted)
            hwsort
          simp only [List.cons.injEq, and_true] at heq
          omega
        · apply hwb
          rw [List.all_eq_true]
          intro v hv
          exact decide_eq_true (hsm.2 v hv)

theorem byCount_def_eq (l : List Nat) :
    List.insertionSort pairGE (l.dedup.map (fun r => (r, l.count r))) = byCount l := rfl

theorem map_snd_eq_two (B : List (Nat × Nat)) (a b : Nat)
    (h : B.map Prod.snd = [a, b]) : ∃ x y, B = [(x, a), (y, b)] := by
  rcases B with _ | ⟨p0, _ | ⟨p1, _ | ⟨p2, r⟩⟩⟩ <;> simp at h
  exact ⟨p0.1, p1.1, by rw [← h.1, ← h.2]⟩

theorem map_snd_eq_three (B : List (Nat × Nat)) (a b c : Nat)
    (h : B.map Prod.snd = [a, b, c]) : ∃ x y z, B = [(x, a), (y, b), (z, c)] := by
  rcases B with _ | ⟨p0, _ | ⟨p1, _ | ⟨p2, _ | ⟨p3, r⟩⟩⟩⟩ <;> simp at h
  exact ⟨p0.1, p1.1, p2.1, by rw [← h.1, ← h.2.1, ← h.2.2]⟩

theorem map_snd_eq_four (B : List (Nat × Nat)) (a b c d : Nat)
    (h : B.map Prod.snd = [a, b, c, d]) :
    ∃ x y z w, B = [(x, a), (y, b), (z, c), (w, d)] := by
  rcases B with _ | ⟨p0, _ | ⟨p1, _ | ⟨p2, _ | ⟨p3, _ | ⟨p4, r⟩⟩⟩⟩⟩ <;> simp at h
  exact ⟨p0.1, p1.1, p2.1, p3.1, by rw [← h.1, ← h.2.1, ← h.2.2.1, ← h.2.2.2]⟩

theorem map_snd_eq_five (B : List (Nat × Nat)) (a b c d e : Nat)
    (h : B.map Prod.snd = [a, b, c, d, e]) :
    ∃ x y z w v, B = [(x, a), (y, b), (z, c), (w, d), (v, e)] := by
  rcases B with _ | ⟨p0, _ | ⟨p1, _ | ⟨p2, _ | ⟨p3, _ | ⟨p4, _ | ⟨p5, r⟩⟩⟩⟩⟩⟩ <;> simp at h
  exact ⟨p0.1, p1.1, p2.1, p3.1, p4.1,
    by rw [← h.1, ← h.2.1, ← h.2.2.1, ← h.2.2.2.1, ← h.2.2.2.2]⟩

/-- C2: for every 5-card hand of 5 distinct cards drawn from the 52-card
universe, the category returned by `evaluate_5` (rank5) equals the category
assigned by the reference poker classifier `referenceCategory`, built from the
specification's ladder straight-flush(8) > quads(7) > full-house(6) > flush(5)
> straight(4) > trips(3) > two-pair(2) > pair(1) > high-card(0), straights
including the wheel A-2-3-4-5. -/
theorem rank5_category_matches_reference (cards5 : List Card)
    (hlen : cards5.length = 5) (hnd : cards5.Nodup)
    (hmem : ∀ c ∈ cards5, c ∈ deck52) :
    (evaluate_5 cards5).1 = referenceCategory cards5 := by
  have hne : cards5 ≠ [] := by intro h; rw [h] at hlen; simp at hlen
  have hRlen : (cards5.map Card.rank).length = 5 := by simp [hlen]
  have hle4 : ∀ k ∈ (byCount (cards5.map Card.rank)).map Prod.snd, k ≤ 4 := by
    intro k hk
    obtain ⟨p, hp, rfl⟩ := List.mem_map.mp hk
    obtain ⟨h1, h2⟩ := (mem_byCount _ p).mp hp
    rw [h2]
    exact count_rank_le_four cards5 hnd hmem p.1
  have hshape := shape5 ((byCount (cards5.map Card.rank)).map Prod.snd)
    (byCount_snd_sorted _) (byCount_snd_pos _) hle4
    (by rw [byCount_snd_sum]; exact hRlen)
  have hall : ∀ r ∈ cards5.map Card.rank,
      (cards5.map Card.rank).count r ∈ (byCount (cards5.map Card.rank)).map Prod.snd :=
    fun r hr => count_mem_byCount_snd _ r hr
  have hslen : (List.insertionSort (fun a b => a ≤ b)
      (cards5.map Card.rank).dedup).length = (cards5.map Card.rank).dedup.length :=
    (List.perm_insertionSort _ _).length_eq
  rw [evaluate5_fst cards5, byCount_def_eq]
  unfold referenceCategory
  rcases hshape with hsh | hsh | hsh | hsh | hsh | hsh
  · obtain ⟨x0, x1, hB⟩ := map_snd_eq_two _ 4 1 hsh
    have hx0 : x0 ∈ cards5.map Card.rank ∧
        (4 : Nat) = (cards5.map Card.rank).count x0 :=
      (mem_byCount _ (x0, 4)).mp (by rw [hB]; simp)
    have hdl : (cards5.map Card.rank).dedup.length = 2 := by
      rw [← byCount_length, hB]
      rfl
    have hstF : straightScan (List.insertionSort (fun a b => a ≤ b)
        (cards5.map Card.rank).dedup) (cards5.map Card.rank) = (false, 0) :=
      straightScan_short _ _ (by rw [hslen, hdl]; omega)
    have hrsF : ¬refStraight cards5 := fun hrs => by
      have := refStraight_dedup_length cards5 hrs
      omega
    have hrfF : ¬refFlush cards5 := fun hf => by
      have hnr := refFlush_rank_nodup cards5 hnd hf
      have h1 := List.nodup_iff_count_le_one.mp hnr x0
      have h2 := hx0.2
      omega
    have hc1F : ¬((cards5.map Card.suit).dedup.length = 1 ∧
        (straightScan (List.insertionSort (fun a b => a ≤ b)
          (cards5.map Card.rank).dedup) (cards5.map Card.rank)).1 = true) :=
      fun h => by rw [hstF] at h; simp at h
    have hc2T : ((([(x0, 4), (x1, 1)] : List (Nat × Nat)).getD 0 (0, 0)).2 = 4) := rfl
    have hr1F : ¬(refFlush cards5 ∧ refStraight cards5) := fun h => hrfF h.1
    have hr2T : refQuads cards5 := ⟨x0, hx0.1, hx0.2.symm⟩
    rw [hB, if_neg hc1F, if_pos hc2T, if_neg hr1F, if_pos hr2T]
  · obtain ⟨x0, x1, hB⟩ := map_snd_eq_two _ 3 2 hsh
    have hx0 : x0 ∈ cards5.map Card.rank ∧
        (3 : Nat) = (cards5.map Card.rank).count x0 :=
      (mem_byCount _ (x0, 3)).mp (by rw [hB]; simp)
    have hx1 : x1 ∈ cards5.map Card.rank ∧
        (2 : Nat) = (cards5.map Card.rank).count x1 :=
      (mem_byCount _ (x1, 2)).mp (by rw [hB]; simp)
    have hfn := byCount_fst_nodup (cards5.map Card.rank)
    rw [hB] at hfn
    simp at hfn
    have hdl : (cards5.map Card.rank).dedup.length = 2 := by
      rw [← byCount_length, hB]
      rfl
    have hstF : straightScan (List.insertionSort (fun a b => a ≤ b)
        (cards5.map Card.rank).dedup) (cards5.map Card.rank) = (false, 0) :=
      straightScan_short _ _ (by rw [hslen, hdl]; omega)
    have hrsF : ¬refStraight cards5 := fun hrs => by
      have := refStraight_dedup_length cards5 hrs
      omega
    have hqF : ¬refQuads cards5 := fun h => by
      obtain ⟨r, hr, hc⟩ := h
      have hmm := hall r hr
      rw [hB] at hmm
      simp at hmm
      omega
    have hc1F : ¬((cards5.map Card.suit).dedup.length = 1 ∧
        (straightScan (List.insertionSort (fun a b => a ≤ b)
          (cards5.map Card.rank).dedup) (cards5.map Card.rank)).1 = true) :=
      fun h => by rw [hstF] at h; simp at h
    have hc2F : ¬((([(x0, 3), (x1, 2)] : List (Nat × Nat)).getD 0 (0, 0)).2 = 4) := by
      show ¬((3 : Nat) = 4)
      decide
    have hc3T : (([(x0, 3), (x1, 2)] : List (Nat × Nat)).getD 0 (0, 0)).2 = 3 ∧
        1 < ([(x0, 3), (x1, 2)] : List (Nat × Nat)).length ∧
        2 ≤ (([(x0, 3), (x1, 2)] : List (Nat × Nat)).getD 1 (0, 0)).2 :=
      ⟨rfl, by show (1 : Nat) < 2; decide, by show (2 : Nat) ≤ 2; decide⟩
    have hr1F : ¬(refFlush cards5 ∧ refStraight cards5) := fun h => hrsF h.2
    have hr3T : refFullHouse cards5 :=
      ⟨x0, hx0.1, x1, hx1.1, hfn, hx0.2.symm, hx1.2.symm⟩
    rw [hB, if_neg hc1F, if_neg hc2F, if_pos hc3T, if_neg hr1F, if_neg hqF,
      if_pos hr3T]
  · obtain ⟨x0, x1, x2, hB⟩ := map_snd_eq_three _ 3 1 1 hsh
    have hx0 : x0 ∈ cards5.map Card.rank ∧
        (3 : Nat) = (cards5.map Card.rank).count x0 :=
      (mem_byCount _ (x0, 3)).mp (by rw [hB]; simp)
    have hdl : (cards5.map Card.rank).dedup.length = 3 := by
      rw [← byCount_length, hB]
      rfl
    have hstF : straightScan (List.insertionSort (fun a b => a ≤ b)
        (cards5.map Card.rank).dedup) (cards5.map Card.rank) = (false, 0) :=
      straightScan_short _ _ (by rw [hslen, hdl]; omega)
    have hrsF : ¬refStraight cards5 := fun hrs => by
      have := refStraight_dedup_length cards5 hrs
      omega
    have hrfF : ¬refFlush cards5 := fun hf => by
      have hnr := refFlush_rank_nodup cards5 hnd hf
      have h1 := List.nodup_iff_count_le_one.mp hnr x0
      have h2 := hx0.2
      omega
    have hfl1F : ¬(cards5.map Card.suit).dedup.length = 1 :=
      fun h1 => hrfF ((suits_dedup_one_iff cards5 hne).mp h1)
    have hqF : ¬refQuads cards5 := fun h => by
      obtain ⟨r, hr, hc⟩ := h
      have hmm := hall r hr
      rw [hB] at hmm
      simp at hmm
      omega
    have hfhF : ¬refFullHouse cards5 := fun h => by
      obtain ⟨r, hr, s, hs, hrs, h3, h2⟩ := h
      have hmm := hall s hs
      rw [hB] at hmm
      simp at hmm
      omega
    have hc1F : ¬((cards5.map Card.suit).dedup.length = 1 ∧
        (straightScan (List.insertionSort (fun a b => a ≤ b)
          (cards5.map Card.rank).dedup) (cards5.map Card.rank)).1 = true) :=
      fun h => by rw [hstF] at h; simp at h
    have hc2F : ¬((([(x0, 3), (x1, 1), (x2, 1)] : List (Nat × Nat)).getD 0 (0, 0)).2
        = 4) := by
      show ¬((3 : Nat) = 4)
      decide
    have hc3F : ¬((([(x0, 3), (x1, 1), (x2, 1)] : List (Nat × Nat)).getD 0 (0, 0)).2
          = 3 ∧
        1 < ([(x0, 3), (x1, 1), (x2, 1)] : List (Nat × Nat)).length ∧
        2 ≤ (([(x0, 3), (x1, 1), (x2, 1)] : List (Nat × Nat)).getD 1 (0, 0)).2) :=
      fun h => absurd h.2.2 (by show ¬((2 : Nat) ≤ 1); decide)
    have hc5F : ¬((straightScan (List.insertionSort (fun a b => a ≤ b)
        (cards5.map Card.rank).dedup) (cards5.map Card.rank)).1 = true) :=
      fun h => by rw [hstF] at h; simp at h
    have hc6T : ((([(x0, 3), (x1, 1), (x2, 1)] : List (Nat × Nat)).getD 0 (0, 0)).2
        = 3) := rfl
    have hr1F : ¬(refFlush cards5 ∧ refStraight cards5) := fun h => hrsF h.2
    have hr6T : refTrips cards5 := ⟨x0, hx0.1, hx0.2.symm⟩
    rw [hB, if_neg hc1F, if_neg hc2F, if_neg hc3F, if_neg hfl1F, if_neg hc5F,
      if_pos hc6T, if_neg hr1F, if_neg hqF, if_neg hfhF, if_neg hrfF, if_neg hrsF,
      if_pos hr6T]
  · obtain ⟨x0, x1, x2, hB⟩ := map_snd_eq_three _ 2 2 1 hsh
    have hx0 : x0 ∈ cards5.map Card.rank ∧
        (2 : Nat) = (cards5.map Card.rank).count x0 :=
      (mem_byCount _ (x0, 2)).mp (by rw [hB]; simp)
    have hx1 : x1 ∈ cards5.map Card.rank ∧
        (2 : Nat) = (cards5.map Card.rank).count x1 :=
      (mem_byCount _ (x1, 2)).mp (by rw [hB]; simp)
    have hfn := byCount_fst_nodup (cards5.map Card.rank)
    rw [hB] at hfn
    simp at hfn
    have hdl : (cards5.map Card.rank).dedup.length = 3 := by
      rw [← byCount_length, hB]
      rfl
    have hstF : straightScan (List.insertionSort (fun a b => a ≤ b)
        (cards5.map Card.rank).dedup) (cards5.map Card.rank) = (false, 0) :=
      straightScan_short _ _ (by rw [hslen, hdl]; omega)
    have hrsF : ¬refStraight cards5 := fun hrs => by
      have := refStraight_dedup_length cards5 hrs
      omega
    have hrfF : ¬refFlush cards5 := fun hf => by
      have hnr := refFlush_rank_nodup cards5 hnd hf
      have h1 := List.nodup_iff_count_le_one.mp hnr x0
      have h2 := hx0.2
      omega
    have hfl1F : ¬(cards5.map Card.suit).dedup.length = 1 :=
      fun h1 => hrfF ((suits_dedup_one_iff cards5 hne).mp h1)
    have hqF : ¬refQuads cards5 := fun h => by
      obtain ⟨r, hr, hc⟩ := h
      have hmm := hall r hr
      rw [hB] at hmm
      simp at hmm
      omega
    have hfhF : ¬refFullHouse cards5 := fun h => by
      obtain ⟨r, hr, s, hs, hrs, h3, h2⟩ := h
      have hmm := hall r hr
      rw [hB] at hmm
      simp at hmm
      omega
    have htF : ¬refTrips cards5 := fun h => by
      obtain ⟨r, hr, hc⟩ := h
      have hmm := hall r hr
      rw [hB] at hmm
      simp at hmm
      omega
    have hc1F : ¬((cards5.map Card.suit).dedup.length = 1 ∧
        (straightScan (List.insertionSort (fun a b => a ≤ b)
          (cards5.map Card.rank).dedup) (cards5.map Card.rank)).1 = true) :=
      fun h => by rw [hstF] at h; simp at h
    have hc2F : ¬((([(x0, 2), (x1, 2), (x2, 1)] : List (Nat × Nat)).getD 0 (0, 0)).2
        = 4) := by
      show ¬((2 : Nat) = 4)
      decide
    have hc3F : ¬((([(x0, 2), (x1, 2), (x2, 1)] : List (Nat × Nat)).getD 0 (0, 0)).2
          = 3 ∧
        1 < ([(x0, 2), (x1, 2), (x2, 1)] : List (Nat × Nat)).length ∧
        2 ≤ (([(x0, 2), (x1, 2), (x2, 1)] : List (Nat × Nat)).getD 1 (0, 0)).2) :=
      fun h => absurd h.1 (by show ¬((2 : Nat) = 3); decide)
    have hc5F : ¬((straightScan (List.insertionSort (fun a b => a ≤ b)
        (cards5.map Card.rank).dedup) (cards5.map Card.rank)).1 = true) :=
      fun h => by rw [hstF] at h; simp at h
    have hc6F : ¬((([(x0, 2), (x1, 2), (x2, 1)] : List (Nat × Nat)).getD 0 (0, 0)).2
        = 3) := by
      show ¬((2 : Nat) = 3)
      decide
    have hc7T : (([(x0, 2), (x1, 2), (x2, 1)] : List (Nat × Nat)).getD 0 (0, 0)).2
          = 2 ∧
        1 < ([(x0, 2), (x1, 2), (x2, 1)] : List (Nat × Nat)).length ∧
        (([(x0, 2), (x1, 2), (x2, 1)] : List (Nat × Nat)).getD 1 (0, 0)).2 = 2 :=
      ⟨rfl, by show (1 : Nat) < 3; decide, rfl⟩
    have hr1F : ¬(refFlush cards5 ∧ refStraight cards5) := fun h => hrsF h.2
    have hr7T : refTwoPair cards5 :=
      ⟨x0, hx0.1, x1, hx1.1, hfn.1.1, hx0.2.symm, hx1.2.symm⟩
    rw [hB, if_neg hc1F, if_neg hc2F, if_neg hc3F, if_neg hfl1F, if_neg hc5F,
      if_neg hc6F, if_pos hc7T, if_neg hr1F, if_neg hqF, if_neg hfhF, if_neg hrfF,
      if_neg hrsF, if_neg htF, if_pos hr7T]
  · obtain ⟨x0, x1, x2, x3, hB⟩ := map_snd_eq_four _ 2 1 1 1 hsh
    have hx0 : x0 ∈ cards5.map Card.rank ∧
        (2 : Nat) = (cards5.map Card.rank).count x0 :=
      (mem_byCount _ (x0, 2)).mp (by rw [hB]; simp)
    have hdl : (cards5.map Card.rank).dedup.length = 4 := by
      rw [← byCount_length, hB]
      rfl
    have hstF : straightScan (List.insertionSort (fun a b => a ≤ b)
        (cards5.map Card.rank).dedup) (cards5.map Card.rank) = (false, 0) :=
      straightScan_short _ _ (by rw [hslen, hdl]; omega)
    have hrsF : ¬refStraight cards5 := fun hrs => by
      have := refStraight_dedup_length cards5 hrs
      omega
    have hrfF : ¬refFlush cards5 := fun hf => by
      have hnr := refFlush_rank_nodup cards5 hnd hf
      have h1 := List.nodup_iff_count_le_one.mp hnr x0
      have h2 := hx0.2
      omega
    have hfl1F : ¬(cards5.map Card.suit).dedup.length = 1 :=
      fun h1 => hrfF ((suits_dedup_one_iff cards5 hne).mp h1)
    have hqF : ¬refQuads cards5 := fun h => by
      obtain ⟨r, hr, hc⟩ := h
      have hmm := hall r hr
      rw [hB] at hmm
      simp at hmm
      omega
    have hfhF : ¬refFullHouse cards5 := fun h => by
      obtain ⟨r, hr, s, hs, hrs, h3, h2⟩ := h
      have hmm := hall r hr
      rw [hB] at hmm
      simp at hmm
      omega
    have htF : ¬refTrips cards5 := fun h => by
      obtain ⟨r, hr, hc⟩ := h
      have hmm := hall r hr
      rw [hB] at hmm
      simp at hmm
      omega
    have htpF : ¬refTwoPair cards5 := fun h => by
      obtain ⟨r, hr, s, hs, hrs, h2r, h2s⟩ := h
      have hrm := (mem_byCount (cards5.map Card.rank) (r, 2)).mpr ⟨hr, h2r.symm⟩
      have hsm2 := (mem_byCount (cards5.map Card.rank) (s, 2)).mpr ⟨hs, h2s.symm⟩
      rw [hB] at hrm hsm2
      simp at hrm hsm2
      exact hrs (hrm.trans hsm2.symm)
    have hc1F : ¬((cards5.map Card.suit).dedup.length = 1 ∧
        (straightScan (List.insertionSort (fun a b => a ≤ b)
          (cards5.map Card.rank).dedup) (cards5.map Card.rank)).1 = true) :=
      fun h => by rw [hstF] at h; simp at h
    have hc2F : ¬((([(x0, 2), (x1, 1), (x2, 1), (x3, 1)] :
        List (Nat × Nat)).getD 0 (0, 0)).2 = 4) := by
      show ¬((2 : Nat) = 4)
      decide
    have hc3F : ¬((([(x0, 2), (x1, 1), (x2, 1), (x3, 1)] :
          List (Nat × Nat)).getD 0 (0, 0)).2 = 3 ∧
        1 < ([(x0, 2), (x1, 1), (x2, 1), (x3, 1)] : List (Nat × Nat)).length ∧
        2 ≤ (([(x0, 2), (x1, 1), (x2, 1), (x3, 1)] :
          List (Nat × Nat)).getD 1 (0, 0)).2) :=
      fun h => absurd h.1 (by show ¬((2 : Nat) = 3); decide)
    have hc5F : ¬((straightScan (List.insertionSort (fun a b => a ≤ b)
        (cards5.map Card.rank).dedup) (cards5.map Card.rank)).1 = true) :=
      fun h => by rw [hstF] at h; simp at h
    have hc6F : ¬((([(x0, 2), (x1, 1), (x2, 1), (x3, 1)] :
        List (Nat × Nat)).getD 0 (0, 0)).2 = 3) := by
      show ¬((2 : Nat) = 3)
      decide
    have hc7F : ¬((([(x0, 2), (x1, 1), (x2, 1), (x3, 1)] :
          List (Nat × Nat)).getD 0 (0, 0)).2 = 2 ∧
        1 < ([(x0, 2), (x1, 1), (x2, 1), (x3, 1)] : List (Nat × Nat)).length ∧
        (([(x0, 2), (x1, 1), (x2, 1), (x3, 1)] :
          List (Nat × Nat)).getD 1 (0, 0)).2 = 2) :=
      fun h => absurd h.2.2 (by show ¬((1 : Nat) = 2); decide)
    have hc8T : ((([(x0, 2), (x1, 1), (x2, 1), (x3, 1)] :
        List (Nat × Nat)).getD 0 (0, 0)).2 = 2) := rfl
    have hr1F : ¬(refFlush cards5 ∧ refStraight cards5) := fun h => hrsF h.2
    have hr8T : refPair cards5 := ⟨x0, hx0.1, hx0.2.symm⟩
    rw [hB, if_neg hc1F, if_neg hc2F, if_neg hc3F, if_neg hfl1F, if_neg hc5F,
      if_neg hc6F, if_neg hc7F, if_pos hc8T, if_neg hr1F, if_neg hqF, if_neg hfhF,
      if_neg hrfF, if_neg hrsF, if_neg htF, if_neg htpF, if_pos hr8T]
  · obtain ⟨x0, x1, x2, x3, x4, hB⟩ := map_snd_eq_five _ 1 1 1 1 1 hsh
    have h1 : ∀ r ∈ cards5.map Card.rank, (cards5.map Card.rank).count r = 1 := by
      intro r hr
      have hmm := hall r hr
      rw [hB] at hmm
      simp at hmm
      exact hmm
    have hndR : (cards5.map Card.rank).Nodup := by
      rw [List.nodup_iff_count_le_one]
      intro a
      by_cases ha : a ∈ cards5.map Card.rank
      · have := h1 a ha
        omega
      · have := List.count_eq_zero_of_not_mem ha
        omega
    have hSt := straight_iff cards5 hlen hndR
    have hFl := suits_dedup_one_iff cards5 hne
    have hqF : ¬refQuads cards5 := fun h => by
      obtain ⟨r, hr, hc⟩ := h
      have := h1 r hr
      omega
    have hfhF : ¬refFullHouse cards5 := fun h => by
      obtain ⟨r, hr, s, hs, hrs, h3, h2⟩ := h
      have := h1 r hr
      omega
    have htF : ¬refTrips cards5 := fun h => by
      obtain ⟨r, hr, hc⟩ := h
      have := h1 r hr
      omega
    have htpF : ¬refTwoPair cards5 := fun h => by
      obtain ⟨r, hr, s, hs, hrs, h2r, h2s⟩ := h
      have := h1 r hr
      omega
    have hpF : ¬refPair cards5 := fun h => by
      obtain ⟨r, hr, hc⟩ := h
      have := h1 r hr
      omega
    have hc2F : ¬((([(x0, 1), (x1, 1), (x2, 1), (x3, 1), (x4, 1)] :
        List (Nat × Nat)).getD 0 (0, 0)).2 = 4) := by
      show ¬((1 : Nat) = 4)
      decide
    have hc3F : ¬((([(x0, 1), (x1, 1), (x2, 1), (x3, 1), (x4, 1)] :
          List (Nat × Nat)).getD 0 (0, 0)).2 = 3 ∧
        1 < ([(x0, 1), (x1, 1), (x2, 1), (x3, 1), (x4, 1)] :
          List (Nat × Nat)).length ∧
        2 ≤ (([(x0, 1), (x1, 1), (x2, 1), (x3, 1), (x4, 1)] :
          List (Nat × Nat)).getD 1 (0, 0)).2) :=
      fun h => absurd h.1 (by show ¬((1 : Nat) = 3); decide)
    have hc6F : ¬((([(x0, 1), (x1, 1), (x2, 1), (x3, 1), (x4, 1)] :
        List (Nat × Nat)).getD 0 (0, 0)).2 = 3) := by
      show ¬((1 : Nat) = 3)
      decide
    have hc7F : ¬((([(x0, 1), (x1, 1), (x2, 1), (x3, 1), (x4, 1)] :
          List (Nat × Nat)).getD 0 (0, 0)).2 = 2 ∧
        1 < ([(x0, 1), (x1, 1), (x2, 1), (x3, 1), (x4, 1)] :
          List (Nat × Nat)).length ∧
        (([(x0, 1), (x1, 1), (x2, 1), (x3, 1), (x4, 1)] :
          List (Nat × Nat)).getD 1 (0, 0)).2 = 2) :=
      fun h => absurd h.1 (by show ¬((1 : Nat) = 2); decide)
    have hc8F : ¬((([(x0, 1), (x1, 1), (x2, 1), (x3, 1), (x4, 1)] :
        List (Nat × Nat)).getD 0 (0, 0)).2 = 2) := by
      show ¬((1 : Nat) = 2)
      decide
    rw [hB]
    by_cases hf : refFlush cards5
    · by_cases hst : refStraight cards5
      · have hc1T : (cards5.map Card.suit).dedup.length = 1 ∧
            (straightScan (List.insertionSort (fun a b => a ≤ b)
              (cards5.map Card.rank).dedup) (cards5.map Card.rank)).1 = true :=
          ⟨hFl.mpr hf, hSt.mpr hst⟩
        rw [if_pos hc1T, if_pos (⟨hf, hst⟩ : refFlush cards5 ∧ refStraight cards5)]
      · have hc1F : ¬((cards5.map Card.suit).dedup.length = 1 ∧
            (straightScan (List.insertionSort (fun a b => a ≤ b)
              (cards5.map Card.rank).dedup) (cards5.map Card.rank)).1 = true) :=
          fun h => hst (hSt.mp h.2)
        have hc4T : (cards5.map Card.suit).dedup.length = 1 := hFl.mpr hf
        have hr1F : ¬(refFlush cards5 ∧ refStraight cards5) := fun h => hst h.2
        rw [if_neg hc1F, if_neg hc2F, if_neg hc3F, if_pos hc4T, if_neg hr1F,
          if_neg hqF, if_neg hfhF, if_pos hf]
    · by_cases hst : refStraight cards5
      · have hc1F : ¬((cards5.map Card.suit).dedup.length = 1 ∧
            (straightScan (List.insertionSort (fun a b => a ≤ b)
              (cards5.map Card.rank).dedup) (cards5.map Card.rank)).1 = true) :=
          fun h => hf (hFl.mp h.1)
        have hc4F : ¬(cards5.map Card.suit).dedup.length = 1 :=
          fun h => hf (hFl.mp h)
        have hc5T : (straightScan (List.insertionSort (fun a b => a ≤ b)
            (cards5.map Card.rank).dedup) (cards5.map Card.rank)).1 = true :=
          hSt.mpr hst
        have hr1F : ¬(refFlush cards5 ∧ refStraight cards5) := fun h => hf h.1
        rw [if_neg hc1F, if_neg hc2F, if_neg hc3F, if_neg hc4F, if_pos hc5T,
          if_neg hr1F, if_neg hqF, if_neg hfhF, if_neg hf, if_pos hst]
      · have hc1F : ¬((cards5.map Card.suit).dedup.length = 1 ∧
            (straightScan (List.insertionSort (fun a b => a ≤ b)
              (cards5.map Card.rank).dedup) (cards5.map Card.rank)).1 = true) :=
          fun h => hf (hFl.mp h.1)
        have hc4F : ¬(cards5.map Card.suit).dedup.length = 1 :=
          fun h => hf (hFl.mp h)
        have hc5F : ¬((straightScan (List.insertionSort (fun a b => a ≤ b)
            (cards5.map Card.rank).dedup) (cards5.map Card.rank)).1 = true) :=
          fun h => hst (hSt.mp h)
        have hr1F : ¬(refFlush cards5 ∧ refStraight cards5) := fun h => hf h.1
        rw [if_neg hc1F, if_neg hc2F, if_neg hc3F, if_neg hc4F, if_neg hc5F,
          if_neg hc6F, if_neg hc7F, if_neg hc8F, if_neg hr1F, if_neg hqF,
          if_neg hfhF, if_neg hf, if_neg hst, if_neg htF, if_neg htpF, if_neg hpF]

/-- Witness: the royal flush in spades satisfies the hypotheses of C2 and its
`evaluate_5` category agrees with the reference classifier. -/
theorem rank5_category_matches_reference_witness :
    (([⟨14, 0⟩, ⟨13, 0⟩, ⟨12, 0⟩, ⟨11, 0⟩, ⟨10, 0⟩] : List Card).length = 5 ∧
      ([⟨14, 0⟩, ⟨13, 0⟩, ⟨12, 0⟩, ⟨11, 0⟩, ⟨10, 0⟩] : List Card).Nodup ∧
      (∀ c ∈ ([⟨14, 0⟩, ⟨13, 0⟩, ⟨12, 0⟩, ⟨11, 0⟩, ⟨10, 0⟩] : List Card),
        c ∈ deck52)) ∧
    (evaluate_5 [⟨14, 0⟩, ⟨13, 0⟩, ⟨12, 0⟩, ⟨11, 0⟩, ⟨10, 0⟩]).1 =
      referenceCategory [⟨14, 0⟩, ⟨13, 0⟩, ⟨12, 0⟩, ⟨11, 0⟩, ⟨10, 0⟩] :=
  ⟨⟨by decide, by decide, by decide⟩,
    rank5_category_matches_reference _ (by decide) (by decide) (by decide)⟩
